import Mathlib

/-!
Verification development for the V-JEPA2 planning demo backend.

This file gives a shallow embedding of the planning-task orchestration core:
the task-lifecycle manager (`backend/app/services/planner.py`: task registries,
creation, cancellation, eviction), the CEM optimizer
(`backend/app/services/vjepa2.py`: `run_cem`), and the embedding-space
trajectory rollout (`planner.py`: `run_trajectory_planning`).

Modelling conventions:
* Python floats are modelled as exact rationals (`ℚ`).  `round(x, n)` is
  modelled as rounding to the nearest multiple of `10 ^ (-n)` (ties away from
  the smaller value, i.e. half-up); none of the concrete values appearing in
  the theorems below sit on a rounding tie, so the tie-breaking convention is
  immaterial.
* `time.time()` timestamps are passed in explicitly as a `now : ℚ` parameter.
* Randomness (numpy Gaussian sampling), the neural scoring functions, and
  `np.std` (whose square root is irrational in general) are abstracted as
  function parameters; every concrete instantiation in a witness is an
  ordinary computable Lean function.
* Python dictionaries (`OrderedDict`) are modelled as association lists in
  insertion order; `d[k] = v` followed by `move_to_end(k)` is "remove any old
  binding of `k`, then append `(k, v)`".
-/

/-- `round(q, 3)` of Python, over exact rationals: nearest multiple of 1/1000. -/
def round3 (q : ℚ) : ℚ := ((Rat.floor (q * 1000 + 1/2) : ℤ) : ℚ) / 1000

/-- `round(q, 4)` of Python, over exact rationals: nearest multiple of 1/10000. -/
def round4 (q : ℚ) : ℚ := ((Rat.floor (q * 10000 + 1/2) : ℤ) : ℚ) / 10000

/-- Mean of a rational list (`np.mean` / `tensor.mean()`);
Python would produce NaN on an empty array, here the junk value is `0/0 = 0`. -/
def vecAvg (v : List ℚ) : ℚ := v.sum / (v.length : ℚ)

/-- Pointwise mean of a batch of equal-length vectors
(`np.mean(batch, axis=0)`). -/
def vecMean (vs : List (List ℚ)) : List ℚ :=
  match vs with
  | [] => []
  | v :: _ => (List.range v.length).map
      (fun j => (vs.map (fun w => w.getD j 0)).sum / (vs.length : ℚ))

/-- `np.clip(x, low, high)` for one coordinate. -/
def clipQ (low high x : ℚ) : ℚ := min high (max low x)

/-- `np.clip(action, action_low, action_high)`: per-dimension clipping. -/
def clipVec (low high action : List ℚ) : List ℚ :=
  (List.range action.length).map
    (fun j => clipQ (low.getD j 0) (high.getD j 0) (action.getD j 0))

/-- Mean elementwise absolute distance between two embeddings, the
`torch.abs(a - b).mean().item()` used throughout `run_trajectory_planning`. -/
def embDist (a b : List ℚ) : ℚ :=
  (((a.zip b).map (fun p => |p.1 - p.2|)).sum) / ((a.zip b).length : ℚ)

-- ===========================================================================
-- Task lifecycle manager (planner.py, PlannerService)
-- ===========================================================================

/-- `PlanningTask` dataclass (planner.py:28).  The opaque `request` payload is
omitted: no claim inspects it.  `result` is kept abstract as an optional
energy/confidence record index. -/
structure PlanningTask where
  status : String
  cancelled : Bool
  result : Option ℚ
  error : Option String
  start_time : Option ℚ
deriving DecidableEq, Repr

/-- `TrajectoryTask` dataclass (planner.py:41), same shape as `PlanningTask`. -/
structure TrajectoryTask where
  status : String
  cancelled : Bool
  result : Option ℚ
  error : Option String
  start_time : Option ℚ
deriving DecidableEq, Repr

/-- A Python dict keyed by task id, in insertion order. -/
abbrev TaskRegistry := List (String × PlanningTask)

abbrev TrajRegistry := List (String × TrajectoryTask)

/-- `self.tasks.get(task_id)` — first binding of the key. -/
def lookupTask (reg : TaskRegistry) (task_id : String) : Option PlanningTask :=
  (reg.find? (fun p => p.1 = task_id)).map (fun p => p.2)

def lookupTraj (reg : TrajRegistry) (task_id : String) : Option TrajectoryTask :=
  (reg.find? (fun p => p.1 = task_id)).map (fun p => p.2)

/-- `self.tasks[task_id] = task` followed by `move_to_end(task_id)`. -/
def dictSetTask (reg : TaskRegistry) (task_id : String) (t : PlanningTask) :
    TaskRegistry :=
  reg.filter (fun p => p.1 ≠ task_id) ++ [(task_id, t)]

def dictSetTraj (reg : TrajRegistry) (task_id : String) (t : TrajectoryTask) :
    TrajRegistry :=
  reg.filter (fun p => p.1 ≠ task_id) ++ [(task_id, t)]

/-- `PlannerService.MAX_TASKS` (planner.py:62). -/
def MAX_TASKS : ℕ := 100

/-- `PlannerService.TASK_TTL_SECONDS` (planner.py:63). -/
def TASK_TTL_SECONDS : ℚ := 3600

/-- `task.status in ("completed", "failed", "cancelled")`. -/
def isTerminalStatus (s : String) : Bool :=
  s = "completed" || s = "failed" || s = "cancelled"

/-- The TTL test of `_cleanup_old_tasks` (planner.py:96-98): the task is
terminal, `task.start_time` is truthy (not `None` and not `0`), and
`now - start_time > TASK_TTL_SECONDS`. -/
def ttlExpired (now : ℚ) (t : PlanningTask) : Bool :=
  isTerminalStatus t.status &&
    (match t.start_time with
     | none => false
     | some s => decide (s ≠ 0) && decide (now - s > TASK_TTL_SECONDS))

/-- First phase of `_cleanup_old_tasks` (planner.py:93-102): delete every task
whose TTL has expired. -/
def cleanup_ttl (now : ℚ) (reg : TaskRegistry) : TaskRegistry :=
  reg.filter (fun p => !(ttlExpired now p.2))

/-- `x[1].start_time or 0` — the sort key of the over-limit phase
(planner.py:111). -/
def sortKey (t : PlanningTask) : ℚ := t.start_time.getD 0

/-- Order used to sort terminal tasks, oldest first (planner.py:110-111).
Python's `list.sort` is stable; so is insertion sort. -/
def entryKeyLe (p q : String × PlanningTask) : Prop := sortKey p.2 ≤ sortKey q.2

instance : DecidableRel entryKeyLe :=
  fun p q => inferInstanceAs (Decidable (sortKey p.2 ≤ sortKey q.2))

instance : IsTotal (String × PlanningTask) entryKeyLe :=
  ⟨fun p q => le_total (sortKey p.2) (sortKey q.2)⟩

instance : IsTrans (String × PlanningTask) entryKeyLe :=
  ⟨fun _ _ _ h h' => le_trans h h'⟩

/-- Second phase of `_cleanup_old_tasks` (planner.py:104-116): if the registry
still exceeds `MAX_TASKS`, delete the oldest terminal tasks (by start time)
until the excess is gone or no terminal task remains. -/
def cleanup_over_limit (reg : TaskRegistry) : TaskRegistry :=
  if reg.length > MAX_TASKS then
    let completed := reg.filter (fun p => isTerminalStatus p.2.status)
    let sortedC := completed.insertionSort entryKeyLe
    let to_remove := reg.length - MAX_TASKS
    (sortedC.take to_remove).foldl
      (fun acc p => acc.filter (fun q => q.1 ≠ p.1)) reg
  else reg

/-- `PlannerService._cleanup_old_tasks` (planner.py:89-116). -/
def cleanup_old_tasks (now : ℚ) (reg : TaskRegistry) : TaskRegistry :=
  cleanup_over_limit (cleanup_ttl now reg)

/-- A freshly created task (planner.py:124): `status="queued"`, no result, no
error, `cancelled=False`, `start_time=None`. -/
def newPlanningTask : PlanningTask :=
  { status := "queued", cancelled := false, result := none, error := none,
    start_time := none }

def newTrajectoryTask : TrajectoryTask :=
  { status := "queued", cancelled := false, result := none, error := none,
    start_time := none }

/-- `PlannerService.create_task` (planner.py:118-130): evict, then insert the
fresh task at the end.  The fresh uuid4 id is passed in as `task_id`. -/
def create_task (now : ℚ) (task_id : String) (reg : TaskRegistry) : TaskRegistry :=
  dictSetTask (cleanup_old_tasks now reg) task_id newPlanningTask

/-- `PlannerService.get_task` (planner.py:132-134). -/
def get_task (reg : TaskRegistry) (task_id : String) : Option PlanningTask :=
  lookupTask reg task_id

/-- `PlannerService.cancel_task` (planner.py:136-143).  Returns the boolean
result together with the updated registry. -/
def cancel_task (reg : TaskRegistry) (task_id : String) :
    Bool × TaskRegistry :=
  match lookupTask reg task_id with
  | some t =>
      if t.status = "running" then
        (true,
         reg.map (fun p =>
           if p.1 = task_id then
             (p.1, { p.2 with cancelled := true, status := "cancelled" })
           else p))
      else (false, reg)
  | none => (false, reg)

/-- `PlannerService.create_trajectory_task` (planner.py:555-564).  Note that it
runs `_cleanup_old_tasks`, which scans only the single-step registry; the pair
(single-step registry, trajectory registry) is threaded explicitly. -/
def create_trajectory_task (now : ℚ) (task_id : String)
    (tasks : TaskRegistry) (traj : TrajRegistry) :
    TaskRegistry × TrajRegistry :=
  (cleanup_old_tasks now tasks, dictSetTraj traj task_id newTrajectoryTask)

/-- `PlannerService.get_trajectory_task` (planner.py:566-568). -/
def get_trajectory_task (reg : TrajRegistry) (task_id : String) :
    Option TrajectoryTask :=
  lookupTraj reg task_id

/-- `PlannerService.cancel_trajectory_task` (planner.py:570-577). -/
def cancel_trajectory_task (reg : TrajRegistry) (task_id : String) :
    Bool × TrajRegistry :=
  match lookupTraj reg task_id with
  | some t =>
      if t.status = "running" then
        (true,
         reg.map (fun p =>
           if p.1 = task_id then
             (p.1, { p.2 with cancelled := true, status := "cancelled" })
           else p))
      else (false, reg)
  | none => (false, reg)

/-- The service state: both registries of `PlannerService.__init__`
(planner.py:66-67). -/
structure ServiceState where
  tasks : TaskRegistry
  trajectory_tasks : TrajRegistry
deriving DecidableEq, Repr

/-- The registry-mutating operations a caller can perform on the service
(create / get / cancel, for either kind of task). -/
inductive ServiceOp where
  | createTask (now : ℚ) (task_id : String)
  | getTask (task_id : String)
  | cancelTask (task_id : String)
  | createTrajectoryTask (now : ℚ) (task_id : String)
  | getTrajectoryTask (task_id : String)
  | cancelTrajectoryTask (task_id : String)

/-- Effect of one operation on the service state, as implemented in
planner.py.  `get_task`/`get_trajectory_task` do not mutate. -/
def applyOp (s : ServiceState) : ServiceOp → ServiceState
  | .createTask now task_id => { s with tasks := create_task now task_id s.tasks }
  | .getTask _ => s
  | .cancelTask task_id => { s with tasks := (cancel_task s.tasks task_id).2 }
  | .createTrajectoryTask now task_id =>
      let p := create_trajectory_task now task_id s.tasks s.trajectory_tasks
      { tasks := p.1, trajectory_tasks := p.2 }
  | .getTrajectoryTask _ => s
  | .cancelTrajectoryTask task_id =>
      { s with trajectory_tasks := (cancel_trajectory_task s.trajectory_tasks task_id).2 }

/-- Run a sequence of registry operations. -/
def runOps (s : ServiceState) (ops : List ServiceOp) : ServiceState :=
  ops.foldl applyOp s

/-- The trajectory-task id created by an operation, if any. -/
def opCreatesTrajId : ServiceOp → Option String
  | .createTrajectoryTask _ task_id => some task_id
  | _ => none

-- ===========================================================================
-- CEM optimizer (vjepa2.py, VJEPA2Inference.run_cem)
-- ===========================================================================

/-- `convergence_threshold = 0.01` (vjepa2.py:1288). -/
def convergence_threshold : ℚ := 1/100

/-- `convergence_window = 3` (vjepa2.py:1289). -/
def convergence_window : ℕ := 3

/-- The adaptive elite fraction of iteration `i` (0-based), vjepa2.py:1294-1295:
`progress = i / max(1, num_iterations - 1)` and
`0.20 * (1 - progress) + 0.05 * progress`. -/
def adaptive_elite_fraction (num_iterations i : ℕ) : ℚ :=
  (1/5) * (1 - (i : ℚ) / ((max 1 (num_iterations - 1) : ℕ) : ℚ))
    + (1/20) * ((i : ℚ) / ((max 1 (num_iterations - 1) : ℕ) : ℚ))

/-- `num_elite = max(1, int(num_samples * current_elite_fraction))`
(vjepa2.py:1296).  The fraction is nonnegative, so Python's `int()`
truncation is the floor. -/
def num_elite_at (num_samples num_iterations i : ℕ) : ℕ :=
  max 1 (Rat.floor ((num_samples : ℚ) * adaptive_elite_fraction num_iterations i)).toNat

/-- Ordering of (action, energy) pairs by energy.  The elite selection of
vjepa.py:1313-1320 (argpartition + argsort) keeps the `num_elite`
lowest-energy samples with the single best one first; sorting the batch by
energy and taking a prefix realizes the same selection (tie order between
equal energies is unspecified in numpy and irrelevant to every claim). -/
def energyLe (p q : List ℚ × ℚ) : Prop := p.2 ≤ q.2

instance : DecidableRel energyLe :=
  fun p q => inferInstanceAs (Decidable (p.2 ≤ q.2))

instance : IsTotal (List ℚ × ℚ) energyLe := ⟨fun p q => le_total p.2 q.2⟩

instance : IsTrans (List ℚ × ℚ) energyLe := ⟨fun _ _ _ h h' => le_trans h h'⟩

/-- Mutable loop state of `run_cem`: the Gaussian parameters, the best-ever
(energy, action) pair, and the appended energy history.  `best_energy = none`
models the initial `float('inf')` (vjepa2.py:1283-1285). -/
structure CEMState where
  action_mean : List ℚ
  action_std : List ℚ
  best_action : List ℚ
  best_energy : Option ℚ
  energy_history : List ℚ
deriving DecidableEq, Repr

/-- The early-convergence test of vjepa2.py:1334-1338 evaluated on the history
as it stands after appending this iteration's entry:
`recent = energy_history[-convergence_window:]` and
`(recent[0] - recent[-1]) / (recent[0] + 1e-6) < convergence_threshold`. -/
def convImprovement (hist : List ℚ) : ℚ :=
  let recent := hist.drop (hist.length - convergence_window)
  (recent.headD 0 - recent.getLastD 0) / (recent.headD 0 + 1/1000000)

/-- Whether the loop breaks at 0-based iteration `i` with post-append history
`hist` (vjepa2.py:1335-1343): the check only runs once `i ≥ convergence_window`
(at which point `hist` has at least 4 entries). -/
def convStop (i : ℕ) (hist : List ℚ) : Bool :=
  decide (convergence_window ≤ i) && decide (convImprovement hist < convergence_threshold)

/-- One iteration of the CEM loop (vjepa2.py:1291-1347).
`sample i` is the Gaussian batch drawn at iteration `i` (np.random.normal —
abstracted; any realized batch sequence is some such function), `score` is the
oracle's vectorized evaluator (`evaluate_actions_ac` or
`_evaluate_actions_embedding`), and `stdFn` is `np.std(elite, axis=0)`
(abstracted since it takes square roots).  Returns `none` where numpy would
raise (empty batch or a score vector of the wrong length), otherwise the new
state and the break flag. -/
def cemStep (sample : ℕ → List (List ℚ)) (score : List (List ℚ) → List ℚ)
    (stdFn : List (List ℚ) → List ℚ)
    (num_samples num_iterations : ℕ) (action_low action_high : List ℚ)
    (i : ℕ) (st : CEMState) : Option (CEMState × Bool) :=
  let actions := (sample i).map (clipVec action_low action_high)
  let energies := score actions
  if energies.length = actions.length then
    let num_elite := num_elite_at num_samples num_iterations i
    let sorted := (actions.zip energies).insertionSort energyLe
    let elite := sorted.take num_elite
    match elite.head? with
    | none => none
    | some (a0, e0) =>
        let best : ℚ × List ℚ :=
          match st.best_energy with
          | none => (e0, a0)
          | some b => if e0 < b then (e0, a0) else (b, st.best_action)
        let hist := st.energy_history ++ [round3 best.1]
        some ({ action_mean := vecMean (elite.map (fun p => p.1)),
                action_std := (stdFn (elite.map (fun p => p.1))).map (fun x => x + 1/1000000),
                best_action := best.2,
                best_energy := some best.1,
                energy_history := hist },
              convStop i hist)
  else none

/-- The `for iteration in range(num_iterations)` loop of `run_cem`, expressed
with the iteration index `i` and the remaining fuel `num_iterations - i`. -/
def cemRun (sample : ℕ → List (List ℚ)) (score : List (List ℚ) → List ℚ)
    (stdFn : List (List ℚ) → List ℚ)
    (num_samples num_iterations : ℕ) (action_low action_high : List ℚ) :
    ℕ → ℕ → CEMState → Option CEMState
  | _, 0, st => some st
  | i, fuel + 1, st =>
      match cemStep sample score stdFn num_samples num_iterations
          action_low action_high i st with
      | none => none
      | some (st', true) => some st'
      | some (st', false) =>
          cemRun sample score stdFn num_samples num_iterations
            action_low action_high (i + 1) fuel st'

/-- The confidence combination of vjepa2.py:1351-1370 (before the final
`round(confidence, 3)`). -/
def cemConfidence (best_energy initial_energy final_std_mean : ℚ) : ℚ :=
  let energy_reduction := max 0 (initial_energy - best_energy)
  let energy_confidence := max 0 (1 - best_energy / 10)
  let convergence_bonus := min (1/5) (energy_reduction / 5)
  let stability_penalty := min (1/5) (final_std_mean * (1/10))
  min (98/100) (max (1/10)
    ((1/2) * energy_confidence + (3/10) + convergence_bonus - stability_penalty))

/-- The result dictionary of `run_cem` (vjepa2.py:1377-1392), with its exact
roundings. -/
structure CEMResult where
  action : List ℚ
  confidence : ℚ
  energy : ℚ
  energy_history : List ℚ
  final_std : List ℚ
  samples_evaluated : ℕ
  is_ac_model : Bool
  energy_threshold : ℚ
  passes_threshold : Bool
  normalized_distance : ℚ
deriving DecidableEq, Repr

/-- Assembling the result dictionary from the final loop state
(vjepa2.py:1349-1392).  Returns `none` when `best_energy` is still `inf`
(the `num_iterations = 0` run, whose Python result is a NaN-polluted dict). -/
def cemFinish (is_ac : Bool) (num_samples num_iterations : ℕ)
    (st : CEMState) : Option CEMResult :=
  match st.best_energy with
  | none => none
  | some best =>
      let final_std_mean := vecAvg st.action_std
      let initial_energy := st.energy_history.headD best
      let confidence := cemConfidence best initial_energy final_std_mean
      some { action := st.best_action.map round4,
             confidence := round3 confidence,
             energy := round3 best,
             energy_history := st.energy_history,
             final_std := st.action_std.map round4,
             samples_evaluated := num_samples * num_iterations,
             is_ac_model := is_ac,
             energy_threshold := 3,
             passes_threshold := decide (best < 3),
             normalized_distance := round3 (min 1 (best / 10)) }

/-- `VJEPA2Inference.run_cem` (vjepa2.py:1208-1392), shallowly embedded.
The branch on `is_ac` (vjepa2.py:1242-1280) only chooses the action
dimension/bounds, the initial mean, and which evaluator `score` is; those are
taken as parameters (`action_low`, `action_high`, `init_mean`, `score`).
The initial std is `action_range / 4` (vjepa2.py:1280).  The
`elite_fraction` argument is accepted, as in the source, and never read:
the loop substitutes the adaptive schedule `adaptive_elite_fraction`. -/
def run_cem (sample : ℕ → List (List ℚ)) (score : List (List ℚ) → List ℚ)
    (stdFn : List (List ℚ) → List ℚ)
    (num_samples num_iterations : ℕ) (elite_fraction : ℚ)
    (action_low action_high : List ℚ) (is_ac : Bool) (init_mean : List ℚ) :
    Option CEMResult :=
  let action_std := (action_high.zip action_low).map (fun p => (p.1 - p.2) / 4)
  let st0 : CEMState :=
    { action_mean := init_mean, action_std := action_std,
      best_action := List.replicate action_low.length 0,
      best_energy := none, energy_history := [] }
  (cemRun sample score stdFn num_samples num_iterations action_low action_high
      0 num_iterations st0).bind
    (cemFinish is_ac num_samples num_iterations)

/-- The confidence formula exactly as the claim states it (claim C9's words):
`min(0.98, max(0.1, 0.5*max(0, 1 - best/10) + 0.3
+ min(0.2, max(0, initial - best)/5) - min(0.2, 0.1*mean_final_std)))`. -/
def confidenceClaimFormula (best initial mean_final_std : ℚ) : ℚ :=
  min (98/100) (max (1/10)
    ((1/2) * max 0 (1 - best / 10) + (3/10)
      + min (1/5) (max 0 (initial - best) / 5)
      - min (1/5) ((1/10) * mean_final_std)))

-- ===========================================================================
-- Trajectory rollout (planner.py, run_trajectory_planning)
-- ===========================================================================

/-- The per-step result of `run_cem_from_embedding`.

Modelled from the spec: `run_cem_from_embedding` is called by
`run_trajectory_planning` (planner.py:802) but its definition is not part of
the sources; per the spec (section 4.3a) it runs the CEM optimizer "with the
scoring function bound to (current trajectory embedding, goal embedding) via
the oracle's action-conditioned evaluator" and yields a best action with its
energy, confidence and energy history.  It is therefore an oracle here. -/
structure StepCEMOut where
  action : List ℚ
  energy : ℚ
  confidence : ℚ
  energy_history : List ℚ
  is_ac_model : Bool
deriving DecidableEq, Repr

/-- A `TrajectoryStep` record as appended by planner.py:865-874. -/
structure TrajectoryStep where
  step : ℕ
  action : List ℚ
  energy : ℚ
  confidence : ℚ
  energy_history : List ℚ
  distance_to_goal : ℚ
  progress_ratio : ℚ
deriving DecidableEq, Repr, Inhabited

/-- The `TrajectoryResult` of planner.py:920-931. -/
structure TrajectoryResult where
  steps : List TrajectoryStep
  total_energy : ℚ
  avg_energy : ℚ
  avg_confidence : ℚ
  is_ac_model : Bool
  initial_distance : ℚ
  final_distance : ℚ
  total_progress : ℚ
  energy_trend : String
deriving DecidableEq, Repr

/-- The CEM oracle of a trajectory run: at step `i`, with the current
trajectory embedding and the goal embedding, the optimizer's outcome.
The step index accounts for the sampling randomness of distinct calls;
the embeddings passed at step `i` are exactly the pair the scoring is
bound to. -/
abbrev TrajCEMOracle := ℕ → List ℚ → List ℚ → StepCEMOut

/-- The `predict_next_embedding` oracle.

Modelled from the spec: `predict_next_embedding` is called at planner.py:828
but is not defined in the sources; per the spec (section 6) it maps
`(current_embedding, action)` to the predicted next embedding and "may fail",
modelled by `none`.  The step index accounts for call-to-call variation. -/
abbrev PredictOracle := ℕ → List ℚ → List ℚ → Option (List ℚ)

/-- The trajectory embedding before step `n`:
`trajectory_embedding` starts as the encoded current image (planner.py:738)
and each step rolls it forward with `predict_next_embedding` on the CEM best
action, keeping the previous embedding when the predict call fails
(planner.py:820-843). -/
def trajEmbAt (cemO : TrajCEMOracle) (predO : PredictOracle)
    (goal current : List ℚ) : ℕ → List ℚ
  | 0 => current
  | n + 1 =>
      let e := trajEmbAt cemO predO goal current n
      match predO n e (cemO n e goal).action with
      | some e' => e'
      | none => e

/-- `progress_ratio` as computed at planner.py:858-862 (before rounding). -/
def progressRatio (initial_distance current_distance : ℚ) : ℚ :=
  if initial_distance > 1/100 then max 0 (1 - current_distance / initial_distance)
  else 1

/-- The step record appended at step `i` (planner.py:858-874): the CEM result
at the step's trajectory embedding, the goal distance measured after the
roll-forward attempt, and the progress ratio, both rounded to 4 decimals. -/
def trajStepAt (cemO : TrajCEMOracle) (predO : PredictOracle)
    (goal current : List ℚ) (initial_distance : ℚ) (i : ℕ) : TrajectoryStep :=
  let e := trajEmbAt cemO predO goal current i
  let cem := cemO i e goal
  let d := embDist (trajEmbAt cemO predO goal current (i + 1)) goal
  { step := i, action := cem.action, energy := cem.energy,
    confidence := cem.confidence, energy_history := cem.energy_history,
    distance_to_goal := round4 d,
    progress_ratio := round4 (progressRatio initial_distance d) }

/-- The `for step_idx in range(num_steps)` loop of `run_trajectory_planning`
(planner.py:743-883), returning the rolled trajectory embedding, the appended
step list, and the last CEM result (used for the `is_ac_model` flag). -/
def trajLoop (cemO : TrajCEMOracle) (predO : PredictOracle)
    (goal : List ℚ) (initial_distance : ℚ) :
    ℕ → ℕ → List ℚ → List TrajectoryStep → Option StepCEMOut →
    List ℚ × List TrajectoryStep × Option StepCEMOut
  | 0, _, emb, acc, last => (emb, acc, last)
  | fuel + 1, i, emb, acc, _ =>
      let cem := cemO i emb goal
      let emb' :=
        match predO i emb cem.action with
        | some e => e
        | none => emb
      let d := embDist emb' goal
      let stepRec : TrajectoryStep :=
        { step := i, action := cem.action, energy := cem.energy,
          confidence := cem.confidence, energy_history := cem.energy_history,
          distance_to_goal := round4 d,
          progress_ratio := round4 (progressRatio initial_distance d) }
      trajLoop cemO predO goal initial_distance fuel (i + 1) emb'
        (acc ++ [stepRec]) (some cem)

/-- The `energy_trend` classification of planner.py:906-918, applied to the
unrounded final and initial distances. -/
def energyTrend (numCompleted : ℕ) (final_distance initial_distance : ℚ) :
    String :=
  if 2 ≤ numCompleted then
    if final_distance < initial_distance * (19/20) then "decreasing"
    else if final_distance > initial_distance * (21/20) then "increasing"
    else "stable"
  else "unknown"

/-- `run_trajectory_planning` (planner.py:579-954), shallowly embedded from the
point where both images have been encoded: `current` and `goal` are the two
embeddings, `initial_distance` is their mean absolute distance
(planner.py:721), and the loop, statistics and trend classification follow
planner.py:737-931.  Progress callbacks, cancellation polling and memory
handling are I/O-only and not part of the state being verified. -/
def run_trajectory_planning (cemO : TrajCEMOracle) (predO : PredictOracle)
    (current goal : List ℚ) (num_steps : ℕ) : TrajectoryResult :=
  let initial_distance := embDist current goal
  let out := trajLoop cemO predO goal initial_distance num_steps 0 current [] none
  let finalEmb := out.1
  let steps := out.2.1
  let lastCem := out.2.2
  let final_distance := embDist finalEmb goal
  let total_energy := (steps.map (fun s => s.energy)).sum
  let avg_energy :=
    if steps.length = 0 then 0 else total_energy / (steps.length : ℚ)
  let avg_confidence :=
    if steps.length = 0 then 0
    else (steps.map (fun s => s.confidence)).sum / (steps.length : ℚ)
  let total_progress :=
    if initial_distance > 1/100 then 1 - final_distance / initial_distance
    else 1
  { steps := steps,
    total_energy := round3 total_energy,
    avg_energy := round3 avg_energy,
    avg_confidence := round3 avg_confidence,
    is_ac_model := (lastCem.map (fun c => c.is_ac_model)).getD false,
    initial_distance := round4 initial_distance,
    final_distance := round4 final_distance,
    total_progress := round4 total_progress,
    energy_trend := energyTrend steps.length final_distance initial_distance }

-- ===========================================================================
-- Concrete instantiations used by witnesses and counterexamples
-- ===========================================================================

/-- Distinct task ids: the string of `n` letters `a`. -/
def mkId (n : ℕ) : String := String.mk (List.replicate n 'a')

/-- A task currently being executed. -/
def wRunningTask : PlanningTask :=
  { status := "running", cancelled := false, result := none, error := none,
    start_time := some 1 }

def wRunningTraj : TrajectoryTask :=
  { status := "running", cancelled := false, result := none, error := none,
    start_time := some 1 }

/-- A terminal task that started at time 1. -/
def wOldDoneTask : PlanningTask :=
  { status := "completed", cancelled := false, result := some 1, error := none,
    start_time := some 1 }

def wOldDoneTraj : TrajectoryTask :=
  { status := "completed", cancelled := false, result := some 1, error := none,
    start_time := some 1 }

/-- `MAX_TASKS + 1` terminal tasks, all far past the TTL at time 5000. -/
def wExpiredReg : TaskRegistry :=
  (List.range (MAX_TASKS + 1)).map (fun n => (mkId n, wOldDoneTask))

/-- `MAX_TASKS + 1` trajectory-task creations with distinct ids. -/
def wTrajCreateOps : List ServiceOp :=
  (List.range (MAX_TASKS + 1)).map
    (fun n => ServiceOp.createTrajectoryTask 0 (mkId n))

/-- A degenerate CEM sampler: one 1-dimensional action per batch. -/
def wSample : ℕ → List (List ℚ) := fun _ => [[0]]

/-- A constant-output scoring function (every candidate scores 0). -/
def wScore : List (List ℚ) → List ℚ :=
  fun acts => List.replicate acts.length 0

/-- A concrete elite-std outcome, chosen so the final std is 1/250. -/
def wStdFn : List (List ℚ) → List ℚ := fun _ => [3999/1000000]

/-- A fixed trajectory-CEM oracle outcome. -/
def wCemT : TrajCEMOracle :=
  fun _ _ _ => { action := [0], energy := 1, confidence := 1/2,
                 energy_history := [1], is_ac_model := true }

/-- A predict oracle that always fails. -/
def wPredFail : PredictOracle := fun _ _ _ => none

/-- A predict oracle landing exactly 5% of the way from goal distance 1. -/
def wPredStable : PredictOracle := fun _ _ _ => some [1/20]

/-- A predict oracle whose prediction leaves distance 1 to goal `[3]`. -/
def wPredFar : PredictOracle := fun _ _ _ => some [2]

/-- Embedding value reached after step `i` in the spec's concrete scenario
(distances to goal `[1]` of 0.8, 0.5, 0.3). -/
def wSeqVal : ℕ → ℚ
  | 0 => 1/5
  | 1 => 1/2
  | _ => 7/10

/-- The predict oracle of the spec's concrete scenario. -/
def wPredSeq : PredictOracle := fun i _ _ => some [wSeqVal i]

-- ===========================================================================
-- Theorems
-- ===========================================================================

-- Association-list helpers -------------------------------------------------

theorem find?_map_fst_preserving {β γ : Type _} (g : String × β → String × γ)
    (hg : ∀ p, (g p).1 = p.1) (l : List (String × β)) (k : String) :
    (l.map g).find? (fun p => p.1 = k) = (l.find? (fun p => p.1 = k)).map g := by
  induction l with
  | nil => rfl
  | cons a l ih =>
      by_cases h : a.1 = k
      · simp [List.find?_cons, hg a, h]
      · simp [List.find?_cons, hg a, h, ih]

theorem find?_fst_eq {β : Type _} {l : List (String × β)} {k : String}
    {p : String × β} (h : l.find? (fun q => q.1 = k) = some p) : p.1 = k := by
  have := List.find?_some h
  simpa using this


theorem lookupTask_map_cancel (reg : TaskRegistry) (task_id k : String) :
    lookupTask
      (reg.map (fun p =>
        if p.1 = task_id then
          (p.1, { p.2 with cancelled := true, status := "cancelled" })
        else p)) k
      = if k = task_id then
          (lookupTask reg k).map
            (fun t => { t with cancelled := true, status := "cancelled" })
        else lookupTask reg k := by
  have hg : ∀ p : String × PlanningTask,
      ((fun p =>
        if p.1 = task_id then
          (p.1, { p.2 with cancelled := true, status := "cancelled" })
        else p) p).1 = p.1 := by
    intro p; by_cases h : p.1 = task_id <;> simp [h]
  rw [lookupTask, find?_map_fst_preserving _ hg]
  by_cases h : k = task_id
  · subst h
    rcases hfind : reg.find? (fun q => q.1 = k) with _ | p
    · simp [lookupTask, hfind]
    · have hpk : p.1 = k := find?_fst_eq hfind
      simp [lookupTask, hfind, hpk]
  · rcases hfind : reg.find? (fun q => q.1 = k) with _ | p
    · simp [lookupTask, hfind, h]
    · have hpk : p.1 = k := find?_fst_eq hfind
      simp [lookupTask, hfind, hpk, h]

theorem lookupTraj_map_cancel (reg : TrajRegistry) (task_id k : String) :
    lookupTraj
      (reg.map (fun p =>
        if p.1 = task_id then
          (p.1, { p.2 with cancelled := true, status := "cancelled" })
        else p)) k
      = if k = task_id then
          (lookupTraj reg k).map
            (fun t => { t with cancelled := true, status := "cancelled" })
        else lookupTraj reg k := by
  have hg : ∀ p : String × TrajectoryTask,
      ((fun p =>
        if p.1 = task_id then
          (p.1, { p.2 with cancelled := true, status := "cancelled" })
        else p) p).1 = p.1 := by
    intro p; by_cases h : p.1 = task_id <;> simp [h]
  rw [lookupTraj, find?_map_fst_preserving _ hg]
  by_cases h : k = task_id
  · subst h
    rcases hfind : reg.find? (fun q => q.1 = k) with _ | p
    · simp [lookupTraj, hfind]
    · have hpk : p.1 = k := find?_fst_eq hfind
      simp [lookupTraj, hfind, hpk]
  · rcases hfind : reg.find? (fun q => q.1 = k) with _ | p
    · simp [lookupTraj, hfind, h]
    · have hpk : p.1 = k := find?_fst_eq hfind
      simp [lookupTraj, hfind, hpk, h]

theorem cancel_task_core (reg : TaskRegistry) (task_id : String) :
    ((cancel_task reg task_id).1 = true ↔
      ∃ t, get_task reg task_id = some t ∧ t.status = "running") ∧
    (∀ t, get_task reg task_id = some t → t.status = "running" →
      get_task (cancel_task reg task_id).2 task_id
        = some { t with cancelled := true, status := "cancelled" } ∧
      ∀ k, k ≠ task_id →
        get_task (cancel_task reg task_id).2 k = get_task reg k) ∧
    ((cancel_task reg task_id).1 = false → (cancel_task reg task_id).2 = reg) := by
  rcases hfind : lookupTask reg task_id with _ | t
  · refine ⟨?_, ?_, ?_⟩
    · simp [cancel_task, hfind, get_task]
    · intro t ht
      rw [get_task, hfind] at ht; cases ht
    · intro _; simp [cancel_task, hfind]
  · by_cases hs : t.status = "running"
    · refine ⟨?_, ?_, ?_⟩
      · constructor
        · intro _; exact ⟨t, hfind, hs⟩
        · intro _; simp [cancel_task, hfind, hs]
      · intro t' ht' _
        rw [get_task, hfind] at ht'
        cases ht'
        constructor
        · show lookupTask (cancel_task reg task_id).2 task_id = _
          simp only [cancel_task, hfind, hs, if_true]
          rw [lookupTask_map_cancel, if_pos rfl, hfind]
          rfl
        · intro k hk
          show lookupTask (cancel_task reg task_id).2 k = _
          simp only [cancel_task, hfind, hs, if_true]
          rw [lookupTask_map_cancel, if_neg hk]
          rfl
      · intro hfalse
        simp only [cancel_task, hfind, hs, if_true] at hfalse
        cases hfalse
    · refine ⟨?_, ?_, ?_⟩
      · constructor
        · intro htrue
          simp only [cancel_task, hfind, hs, if_false] at htrue
          cases htrue
        · rintro ⟨t', ht', hs'⟩
          rw [get_task, hfind] at ht'
          cases ht'
          exact absurd hs' hs
      · intro t' ht' hs'
        rw [get_task, hfind] at ht'; cases ht'; exact absurd hs' hs
      · intro _; simp [cancel_task, hfind, hs]

theorem cancel_traj_core (reg : TrajRegistry) (task_id : String) :
    ((cancel_trajectory_task reg task_id).1 = true ↔
      ∃ t, get_trajectory_task reg task_id = some t ∧ t.status = "running") ∧
    (∀ t, get_trajectory_task reg task_id = some t → t.status = "running" →
      get_trajectory_task (cancel_trajectory_task reg task_id).2 task_id
        = some { t with cancelled := true, status := "cancelled" } ∧
      ∀ k, k ≠ task_id →
        get_trajectory_task (cancel_trajectory_task reg task_id).2 k
          = get_trajectory_task reg k) ∧
    ((cancel_trajectory_task reg task_id).1 = false →
      (cancel_trajectory_task reg task_id).2 = reg) := by
  rcases hfind : lookupTraj reg task_id with _ | t
  · refine ⟨?_, ?_, ?_⟩
    · simp [cancel_trajectory_task, hfind, get_trajectory_task]
    · intro t ht
      rw [get_trajectory_task, hfind] at ht; cases ht
    · intro _; simp [cancel_trajectory_task, hfind]
  · by_cases hs : t.status = "running"
    · refine ⟨?_, ?_, ?_⟩
      · constructor
        · intro _; exact ⟨t, hfind, hs⟩
        · intro _; simp [cancel_trajectory_task, hfind, hs]
      · intro t' ht' _
        rw [get_trajectory_task, hfind] at ht'
        cases ht'
        constructor
        · show lookupTraj (cancel_trajectory_task reg task_id).2 task_id = _
          simp only [cancel_trajectory_task, hfind, hs, if_true]
          rw [lookupTraj_map_cancel, if_pos rfl, hfind]
          rfl
        · intro k hk
          show lookupTraj (cancel_trajectory_task reg task_id).2 k = _
          simp only [cancel_trajectory_task, hfind, hs, if_true]
          rw [lookupTraj_map_cancel, if_neg hk]
          rfl
      · intro hfalse
        simp only [cancel_trajectory_task, hfind, hs, if_true] at hfalse
        cases hfalse
    · refine ⟨?_, ?_, ?_⟩
      · constructor
        · intro htrue
          simp only [cancel_trajectory_task, hfind, hs, if_false] at htrue
          cases htrue
        · rintro ⟨t', ht', hs'⟩
          rw [get_trajectory_task, hfind] at ht'
          cases ht'
          exact absurd hs' hs
      · intro t' ht' hs'
        rw [get_trajectory_task, hfind] at ht'; cases ht'; exact absurd hs' hs
      · intro _; simp [cancel_trajectory_task, hfind, hs]

/-- C2: `cancel_task(task_id)` returns `true` iff a task with that id exists
and its status is exactly `"running"`; in that case the task's `cancelled`
flag becomes `true` and its status `"cancelled"` while every other entry is
untouched; in every other case it returns `false` and leaves the registry —
hence every task's status, cancelled flag and result — unchanged.  The same
holds for `cancel_trajectory_task` over the trajectory registry. -/
theorem C2_cancel_only_running (reg : TaskRegistry) (treg : TrajRegistry)
    (task_id : String) :
    (((cancel_task reg task_id).1 = true ↔
       ∃ t, get_task reg task_id = some t ∧ t.status = "running") ∧
     (∀ t, get_task reg task_id = some t → t.status = "running" →
       get_task (cancel_task reg task_id).2 task_id
         = some { t with cancelled := true, status := "cancelled" } ∧
       ∀ k, k ≠ task_id →
         get_task (cancel_task reg task_id).2 k = get_task reg k) ∧
     ((cancel_task reg task_id).1 = false →
       (cancel_task reg task_id).2 = reg)) ∧
    (((cancel_trajectory_task treg task_id).1 = true ↔
       ∃ t, get_trajectory_task treg task_id = some t ∧ t.status = "running") ∧
     (∀ t, get_trajectory_task treg task_id = some t → t.status = "running" →
       get_trajectory_task (cancel_trajectory_task treg task_id).2 task_id
         = some { t with cancelled := true, status := "cancelled" } ∧
       ∀ k, k ≠ task_id →
         get_trajectory_task (cancel_trajectory_task treg task_id).2 k
           = get_trajectory_task treg k) ∧
     ((cancel_trajectory_task treg task_id).1 = false →
       (cancel_trajectory_task treg task_id).2 = treg)) :=
  ⟨cancel_task_core reg task_id, cancel_traj_core treg task_id⟩

theorem C2_cancel_only_running_witness :
    (cancel_task [(mkId 1, wRunningTask)] (mkId 1)).1 = true ∧
    get_task (cancel_task [(mkId 1, wRunningTask)] (mkId 1)).2 (mkId 1)
      = some { wRunningTask with cancelled := true, status := "cancelled" } ∧
    (cancel_trajectory_task [(mkId 1, wOldDoneTraj)] (mkId 1)).1 = false := by
  have h := C2_cancel_only_running [(mkId 1, wRunningTask)] [(mkId 1, wOldDoneTraj)]
    (mkId 1)
  refine ⟨?_, ?_, ?_⟩
  · exact h.1.1.mpr ⟨wRunningTask, by decide, by decide⟩
  · exact (h.1.2.1 wRunningTask (by decide) (by decide)).1
  · have hne : ¬ (cancel_trajectory_task [(mkId 1, wOldDoneTraj)] (mkId 1)).1 = true := by
      rw [h.2.1]
      rintro ⟨t, ht, hst⟩
      have : t = wOldDoneTraj := by
        have hget : get_trajectory_task [(mkId 1, wOldDoneTraj)] (mkId 1)
            = some wOldDoneTraj := by decide
        rw [hget] at ht
        exact (Option.some_inj.mp ht).symm
      rw [this] at hst
      exact absurd hst (by decide)
    exact Bool.eq_false_iff.mpr hne

-- C10 helpers ---------------------------------------------------------------

theorem find?_filter_ne {β : Type _} (reg : List (String × β)) (i k : String)
    (hk : k ≠ i) :
    (reg.filter (fun p => p.1 ≠ i)).find? (fun p => p.1 = k)
      = reg.find? (fun p => p.1 = k) := by
  induction reg with
  | nil => rfl
  | cons a l ih =>
      by_cases ha : a.1 = i
      · have hak : ¬ (a.1 = k) := fun h => hk (h.symm.trans ha)
        have h1 : (a :: l).filter (fun p => p.1 ≠ i)
            = l.filter (fun p => p.1 ≠ i) := by
          rw [List.filter_cons, if_neg (by simp [ha])]
        have h2 : (a :: l).find? (fun p => p.1 = k)
            = l.find? (fun p => p.1 = k) := by
          rw [List.find?_cons, decide_eq_false hak]
        rw [h1, h2, ih]
      · have h1 : (a :: l).filter (fun p => p.1 ≠ i)
            = a :: l.filter (fun p => p.1 ≠ i) := by
          rw [List.filter_cons, if_pos (by simp [ha])]
        rw [h1]
        by_cases hak : a.1 = k
        · rw [List.find?_cons, List.find?_cons, decide_eq_true hak]
        · rw [List.find?_cons, List.find?_cons, decide_eq_false hak, ih]

theorem lookupTraj_dictSet_ne (reg : TrajRegistry) (i k : String)
    (t : TrajectoryTask) (hk : k ≠ i) :
    lookupTraj (dictSetTraj reg i t) k = lookupTraj reg k := by
  rw [lookupTraj, dictSetTraj, List.find?_append, find?_filter_ne reg i k hk]
  rcases hfind : reg.find? (fun p => p.1 = k) with _ | p
  · have hik : ¬ (i = k) := fun h => hk h.symm
    have : ([(i, t)].find? (fun p => p.1 = k)) = none := by
      rw [List.find?_cons, decide_eq_false hik]
      rfl
    simp [lookupTraj, this]
  · simp [lookupTraj, hfind]

theorem lookupTraj_cancel_ne (reg : TrajRegistry) (i k : String) (hk : k ≠ i) :
    lookupTraj (cancel_trajectory_task reg i).2 k = lookupTraj reg k := by
  rcases hfind : lookupTraj reg i with _ | t
  · simp [cancel_trajectory_task, hfind]
  · by_cases hs : t.status = "running"
    · simp only [cancel_trajectory_task, hfind, hs, if_true]
      rw [lookupTraj_map_cancel, if_neg hk]
    · simp [cancel_trajectory_task, hfind, hs]

theorem terminal_not_running {s : String} (h : isTerminalStatus s = true) :
    s ≠ "running" := by
  intro hc
  rw [hc] at h
  exact absurd h (by decide)

theorem cancel_traj_terminal_unchanged (reg : TrajRegistry) (k : String)
    (t : TrajectoryTask) (hfind : lookupTraj reg k = some t)
    (hterm : isTerminalStatus t.status = true) :
    (cancel_trajectory_task reg k).2 = reg := by
  simp [cancel_trajectory_task, hfind, terminal_not_running hterm]

theorem applyOp_traj_keys_mono (s : ServiceState) (op : ServiceOp) (k : String)
    (h : k ∈ s.trajectory_tasks.map Prod.fst) :
    k ∈ (applyOp s op).trajectory_tasks.map Prod.fst := by
  rcases op with _ | _ | _ | ⟨now, i⟩ | _ | i
  · exact h
  · exact h
  · exact h
  · show k ∈ (dictSetTraj s.trajectory_tasks i newTrajectoryTask).map Prod.fst
    rw [dictSetTraj, List.map_append, List.mem_append]
    by_cases hk : k = i
    · right; simp [hk]
    · left
      rcases List.mem_map.mp h with ⟨p, hp, hpk⟩
      refine List.mem_map.mpr ⟨p, ?_, hpk⟩
      refine List.mem_filter.mpr ⟨hp, ?_⟩
      simp [hpk, hk]
  · exact h
  · show k ∈ ((cancel_trajectory_task s.trajectory_tasks i).2).map Prod.fst
    rcases hfind : lookupTraj s.trajectory_tasks i with _ | t
    · simpa [cancel_trajectory_task, hfind] using h
    · by_cases hs : t.status = "running"
      · simp only [cancel_trajectory_task, hfind, hs, if_true]
        rw [List.map_map]
        rcases List.mem_map.mp h with ⟨p, hp, hpk⟩
        refine List.mem_map.mpr ⟨p, hp, ?_⟩
        show (if p.1 = i then
            (p.1, { p.2 with cancelled := true, status := "cancelled" })
          else p).1 = k
        by_cases hpi : p.1 = i
        · rw [if_pos hpi]; exact hpk
        · rw [if_neg hpi]; exact hpk
      · simpa [cancel_trajectory_task, hfind, hs] using h

theorem applyOp_traj_terminal_preserved (s : ServiceState) (op : ServiceOp)
    (k : String) (t : TrajectoryTask)
    (hfind : lookupTraj s.trajectory_tasks k = some t)
    (hterm : isTerminalStatus t.status = true)
    (hop : opCreatesTrajId op ≠ some k) :
    lookupTraj (applyOp s op).trajectory_tasks k = some t := by
  rcases op with _ | _ | _ | ⟨now, i⟩ | _ | i
  · exact hfind
  · exact hfind
  · exact hfind
  · have hk : k ≠ i := by
      intro hki
      exact hop (by simp [opCreatesTrajId, hki])
    show lookupTraj (dictSetTraj s.trajectory_tasks i newTrajectoryTask) k = some t
    rw [lookupTraj_dictSet_ne _ _ _ _ hk]
    exact hfind
  · exact hfind
  · show lookupTraj (cancel_trajectory_task s.trajectory_tasks i).2 k = some t
    by_cases hk : k = i
    · subst hk
      rw [cancel_traj_terminal_unchanged s.trajectory_tasks k t hfind hterm]
      exact hfind
    · rw [lookupTraj_cancel_ne _ _ _ hk]
      exact hfind

theorem runOps_traj_keys_mono (ops : List ServiceOp) :
    ∀ (s : ServiceState) (k : String),
      k ∈ s.trajectory_tasks.map Prod.fst →
      k ∈ (runOps s ops).trajectory_tasks.map Prod.fst := by
  induction ops with
  | nil => intro s k h; exact h
  | cons op ops ih =>
      intro s k h
      exact ih (applyOp s op) k (applyOp_traj_keys_mono s op k h)

theorem runOps_traj_terminal_preserved (ops : List ServiceOp) :
    ∀ (s : ServiceState) (k : String) (t : TrajectoryTask),
      lookupTraj s.trajectory_tasks k = some t →
      isTerminalStatus t.status = true →
      (∀ op ∈ ops, opCreatesTrajId op ≠ some k) →
      lookupTraj (runOps s ops).trajectory_tasks k = some t := by
  induction ops with
  | nil => intro s k t h _ _; exact h
  | cons op ops ih =>
      intro s k t h hterm hops
      refine ih (applyOp s op) k t ?_ hterm ?_
      · exact applyOp_traj_terminal_preserved s op k t h hterm
          (hops op (List.mem_cons_self op ops))
      · intro o ho; exact hops o (List.mem_cons_of_mem op ho)

theorem dictSetTraj_fresh_length (reg : TrajRegistry) (i : String)
    (t : TrajectoryTask) (h : i ∉ reg.map Prod.fst) :
    (dictSetTraj reg i t).length = reg.length + 1 := by
  rw [dictSetTraj, List.length_append]
  have : reg.filter (fun p => p.1 ≠ i) = reg := by
    refine List.filter_eq_self.mpr ?_
    intro p hp
    have : p.1 ≠ i := by
      intro hpi
      exact h (List.mem_map.mpr ⟨p, hp, hpi⟩)
    simp [this]
  rw [this]
  rfl

theorem dictSetTraj_fresh_keys (reg : TrajRegistry) (i : String)
    (t : TrajectoryTask) (h : i ∉ reg.map Prod.fst) :
    (dictSetTraj reg i t).map Prod.fst = reg.map Prod.fst ++ [i] := by
  rw [dictSetTraj, List.map_append]
  have : reg.filter (fun p => p.1 ≠ i) = reg := by
    refine List.filter_eq_self.mpr ?_
    intro p hp
    have : p.1 ≠ i := by
      intro hpi
      exact h (List.mem_map.mpr ⟨p, hp, hpi⟩)
    simp [this]
  rw [this]
  rfl

theorem runOps_create_traj_length (now : ℚ) (ids : List String) :
    ∀ (s : ServiceState), ids.Nodup →
      (∀ i ∈ ids, i ∉ s.trajectory_tasks.map Prod.fst) →
      (runOps s (ids.map
        (fun i => ServiceOp.createTrajectoryTask now i))).trajectory_tasks.length
        = s.trajectory_tasks.length + ids.length := by
  induction ids with
  | nil => intro s _ _; rfl
  | cons i ids ih =>
      intro s hnd hfresh
      have hfresh_i : i ∉ s.trajectory_tasks.map Prod.fst :=
        hfresh i (List.mem_cons_self i ids)
      have hstep :
          (applyOp s (ServiceOp.createTrajectoryTask now i)).trajectory_tasks
            = dictSetTraj s.trajectory_tasks i newTrajectoryTask := rfl
      have hlen := dictSetTraj_fresh_length s.trajectory_tasks i
        newTrajectoryTask hfresh_i
      have hkeys := dictSetTraj_fresh_keys s.trajectory_tasks i
        newTrajectoryTask hfresh_i
      have := ih (applyOp s (ServiceOp.createTrajectoryTask now i))
        (List.Nodup.of_cons hnd) ?_
      · rw [List.map_cons]
        show (runOps (applyOp s (ServiceOp.createTrajectoryTask now i))
          (ids.map (fun j => ServiceOp.createTrajectoryTask now j))).trajectory_tasks.length = _
        rw [this, hstep, hlen, List.length_cons]
        ring
      · intro j hj
        rw [hstep, hkeys, List.mem_append]
        rintro (hjk | hji)
        · exact hfresh j (List.mem_cons_of_mem i hj) hjk
        · have : j = i := by simpa using hji
          rw [this] at hj
          exact (List.nodup_cons.mp hnd).1 hj

/-- C10: trajectory tasks are never evicted.  `_cleanup_old_tasks` (invoked by
both `create_task` and `create_trajectory_task`) scans only the single-step
registry, so under any sequence of create/get/cancel operations the
trajectory registry never loses an entry: every task id present stays
present, a terminal trajectory task is still returned unchanged by
`get_trajectory_task` after any number of later creates (of fresh ids), and
creating `n` fresh trajectory tasks grows the registry by exactly `n`, past
any bound — in particular beyond `MAX_TASKS`. -/
theorem C10_trajectory_tasks_never_evicted :
    (∀ (ops : List ServiceOp) (s : ServiceState) (k : String),
      k ∈ s.trajectory_tasks.map Prod.fst →
      k ∈ (runOps s ops).trajectory_tasks.map Prod.fst) ∧
    (∀ (ops : List ServiceOp) (s : ServiceState) (k : String)
        (t : TrajectoryTask),
      get_trajectory_task s.trajectory_tasks k = some t →
      isTerminalStatus t.status = true →
      (∀ op ∈ ops, opCreatesTrajId op ≠ some k) →
      get_trajectory_task (runOps s ops).trajectory_tasks k = some t) ∧
    (∀ (now : ℚ) (ids : List String) (s : ServiceState), ids.Nodup →
      (∀ i ∈ ids, i ∉ s.trajectory_tasks.map Prod.fst) →
      (runOps s (ids.map
        (fun i => ServiceOp.createTrajectoryTask now i))).trajectory_tasks.length
        = s.trajectory_tasks.length + ids.length) :=
  ⟨fun ops s k h => runOps_traj_keys_mono ops s k h,
   fun ops s k t h hterm hops => runOps_traj_terminal_preserved ops s k t h hterm hops,
   fun now ids s hnd hfresh => runOps_create_traj_length now ids s hnd hfresh⟩

theorem mkId_injective : Function.Injective mkId := by
  intro m n h
  have hlen := congrArg (fun s => s.data.length) h
  simpa [mkId] using hlen

theorem C10_trajectory_tasks_never_evicted_witness :
    (runOps ⟨[], []⟩ wTrajCreateOps).trajectory_tasks.length = MAX_TASKS + 1 ∧
    MAX_TASKS < MAX_TASKS + 1 := by
  constructor
  · have h := C10_trajectory_tasks_never_evicted.2.2 0
      ((List.range (MAX_TASKS + 1)).map mkId) ⟨[], []⟩
      (List.Nodup.map mkId_injective (List.nodup_range _))
      (by intro i _ hmem; simp at hmem)
    have hops : ((List.range (MAX_TASKS + 1)).map mkId).map
        (fun i => ServiceOp.createTrajectoryTask 0 i) = wTrajCreateOps := by
      rw [List.map_map]; rfl
    rw [hops] at h
    simpa using h
  · exact Nat.lt_succ_self _

-- C3 helpers ----------------------------------------------------------------

theorem nodupKeys_eq_of_same_key {β : Type _} {l : List (String × β)}
    (h : (l.map Prod.fst).Nodup) {p q : String × β}
    (hp : p ∈ l) (hq : q ∈ l) (hk : p.1 = q.1) : p = q := by
  induction l with
  | nil => cases hp
  | cons a l ih =>
      rw [List.map_cons, List.nodup_cons] at h
      rcases List.mem_cons.mp hp with hpa | hpl
      · rcases List.mem_cons.mp hq with hqa | hql
        · rw [hpa, hqa]
        · exfalso
          apply h.1
          refine List.mem_map.mpr ⟨q, hql, ?_⟩
          rw [← hk, hpa]
      · rcases List.mem_cons.mp hq with hqa | hql
        · exfalso
          apply h.1
          refine List.mem_map.mpr ⟨p, hpl, ?_⟩
          rw [hk, hqa]
        · exact ih h.2 hpl hql

theorem keys_nodup_filter {β : Type _} (l : List (String × β))
    (p : String × β → Bool) (h : (l.map Prod.fst).Nodup) :
    ((l.filter p).map Prod.fst).Nodup :=
  List.Nodup.sublist (List.Sublist.map Prod.fst (List.filter_sublist l)) h

theorem filter_del_length {β : Type _} (l : List (String × β)) (i : String)
    (hnd : (l.map Prod.fst).Nodup) (hi : i ∈ l.map Prod.fst) :
    (l.filter (fun q => q.1 ≠ i)).length = l.length - 1 := by
  induction l with
  | nil => cases hi
  | cons a l ih =>
      rw [List.map_cons, List.nodup_cons] at hnd
      by_cases ha : a.1 = i
      · have hfilter : l.filter (fun q => q.1 ≠ i) = l := by
          refine List.filter_eq_self.mpr ?_
          intro q hq
          have : q.1 ≠ i := by
            intro hqi
            exact hnd.1 (List.mem_map.mpr ⟨q, hq, hqi.trans ha.symm⟩)
          simp [this]
        rw [List.filter_cons, if_neg (by simp [ha]), hfilter]
        rfl
      · have hi' : i ∈ l.map Prod.fst := by
          rcases List.mem_map.mp hi with ⟨q, hq, hqi⟩
          rcases List.mem_cons.mp hq with hqa | hql
          · exact absurd (hqa ▸ hqi) ha
          · exact List.mem_map.mpr ⟨q, hql, hqi⟩
        have hlen : 1 ≤ l.length := by
          rcases List.mem_map.mp hi' with ⟨q, hq, _⟩
          exact List.length_pos.mpr (List.ne_nil_of_mem hq)
        rw [List.filter_cons, if_pos (by simp [ha]), List.length_cons,
          List.length_cons, ih hnd.2 hi']
        omega

theorem keys_mem_filter_del {β : Type _} (l : List (String × β)) (i k : String) :
    k ∈ (l.filter (fun q => q.1 ≠ i)).map Prod.fst ↔
      k ∈ l.map Prod.fst ∧ k ≠ i := by
  constructor
  · intro h
    rcases List.mem_map.mp h with ⟨q, hq, hqk⟩
    have hmem := List.mem_filter.mp hq
    refine ⟨List.mem_map.mpr ⟨q, hmem.1, hqk⟩, ?_⟩
    have : q.1 ≠ i := by simpa using hmem.2
    rw [← hqk]; exact this
  · rintro ⟨h, hk⟩
    rcases List.mem_map.mp h with ⟨q, hq, hqk⟩
    refine List.mem_map.mpr ⟨q, List.mem_filter.mpr ⟨hq, ?_⟩, hqk⟩
    simp [hqk ▸ hk]

theorem foldl_del_eq_filter {β : Type _} (dels : List (String × β)) :
    ∀ (acc : List (String × β)),
      dels.foldl (fun acc p => acc.filter (fun q => q.1 ≠ p.1)) acc
        = acc.filter (fun q => decide (q.1 ∉ dels.map Prod.fst)) := by
  induction dels with
  | nil =>
      intro acc
      simp [List.filter_eq_self]
  | cons d dels ih =>
      intro acc
      rw [List.foldl_cons, ih, List.filter_filter]
      apply List.filter_congr
      intro q _
      by_cases h1 : q.1 = d.1
      · simp [h1]
      · by_cases h2 : q.1 ∈ dels.map Prod.fst <;> simp [h1, h2]

theorem foldl_del_length {β : Type _} (dels : List (String × β)) :
    ∀ (acc : List (String × β)),
      (acc.map Prod.fst).Nodup →
      (dels.map Prod.fst).Nodup →
      (∀ p ∈ dels, p.1 ∈ acc.map Prod.fst) →
      (dels.foldl (fun acc p => acc.filter (fun q => q.1 ≠ p.1)) acc).length
        = acc.length - dels.length := by
  induction dels with
  | nil => intro acc _ _ _; rfl
  | cons d dels ih =>
      intro acc hacc hdels hmem
      rw [List.map_cons, List.nodup_cons] at hdels
      rw [List.foldl_cons]
      have hdmem : d.1 ∈ acc.map Prod.fst := hmem d (List.mem_cons_self d dels)
      have hrec := ih (acc.filter (fun q => q.1 ≠ d.1))
        (keys_nodup_filter acc _ hacc) hdels.2 ?_
      · rw [hrec, filter_del_length acc d.1 hacc hdmem, List.length_cons]
        omega
      · intro p hp
        rw [keys_mem_filter_del]
        refine ⟨hmem p (List.mem_cons_of_mem d hp), ?_⟩
        intro hpd
        exact hdels.1 (hpd ▸ List.mem_map.mpr ⟨p, hp, rfl⟩)

theorem cleanup_over_limit_eq_of_le (c1 : TaskRegistry)
    (h : ¬ c1.length > MAX_TASKS) : cleanup_over_limit c1 = c1 := by
  rw [cleanup_over_limit, if_neg h]

theorem cleanup_over_limit_eq_filter (c1 : TaskRegistry)
    (h : c1.length > MAX_TASKS) :
    cleanup_over_limit c1
      = c1.filter (fun q => decide (q.1 ∉
          (((c1.filter (fun p => isTerminalStatus p.2.status)).insertionSort
              entryKeyLe).take (c1.length - MAX_TASKS)).map Prod.fst)) := by
  rw [cleanup_over_limit, if_pos h]
  exact foldl_del_eq_filter _ c1

theorem mem_take_sorted_terminal {c1 : TaskRegistry} {n : ℕ}
    {p : String × PlanningTask}
    (hp : p ∈ ((c1.filter (fun p => isTerminalStatus p.2.status)).insertionSort
        entryKeyLe).take n) :
    p ∈ c1 ∧ isTerminalStatus p.2.status = true := by
  have hp1 : p ∈ (c1.filter (fun p => isTerminalStatus p.2.status)).insertionSort
      entryKeyLe := List.mem_of_mem_take hp
  have hp2 : p ∈ c1.filter (fun p => isTerminalStatus p.2.status) :=
    (List.perm_insertionSort entryKeyLe _).mem_iff.mp hp1
  have := List.mem_filter.mp hp2
  exact ⟨this.1, this.2⟩

theorem cleanup_over_limit_keeps_nonterminal (c1 : TaskRegistry)
    (hnd : (c1.map Prod.fst).Nodup) (e : String × PlanningTask)
    (he : e ∈ c1) (hterm : isTerminalStatus e.2.status = false) :
    e ∈ cleanup_over_limit c1 := by
  by_cases h : c1.length > MAX_TASKS
  · rw [cleanup_over_limit_eq_filter c1 h]
    refine List.mem_filter.mpr ⟨he, ?_⟩
    simp only [decide_eq_true_eq]
    intro hmem
    rcases List.mem_map.mp hmem with ⟨p, hp, hpk⟩
    rcases mem_take_sorted_terminal hp with ⟨hpc, hpterm⟩
    have : p = e := nodupKeys_eq_of_same_key hnd hpc he hpk
    rw [this, hterm] at hpterm
    cases hpterm
  · rw [cleanup_over_limit_eq_of_le c1 h]
    exact he

theorem cleanup_over_limit_keys_subset (c1 : TaskRegistry) (k : String)
    (h : k ∈ (cleanup_over_limit c1).map Prod.fst) : k ∈ c1.map Prod.fst := by
  by_cases hlen : c1.length > MAX_TASKS
  · rw [cleanup_over_limit_eq_filter c1 hlen] at h
    rcases List.mem_map.mp h with ⟨p, hp, hpk⟩
    exact List.mem_map.mpr ⟨p, (List.mem_filter.mp hp).1, hpk⟩
  · rw [cleanup_over_limit_eq_of_le c1 hlen] at h
    exact h

theorem cleanup_over_limit_length (c1 : TaskRegistry)
    (hnd : (c1.map Prod.fst).Nodup) (hlen : c1.length > MAX_TASKS)
    (hterm : c1.length - MAX_TASKS
      ≤ (c1.filter (fun p => isTerminalStatus p.2.status)).length) :
    (cleanup_over_limit c1).length = MAX_TASKS := by
  rw [cleanup_over_limit, if_pos hlen]
  have hsortlen : ((c1.filter (fun p => isTerminalStatus p.2.status)).insertionSort
      entryKeyLe).length = (c1.filter (fun p => isTerminalStatus p.2.status)).length :=
    (List.perm_insertionSort entryKeyLe _).length_eq
  have hsorted_keys_nodup : (((c1.filter (fun p => isTerminalStatus p.2.status)).insertionSort
      entryKeyLe).map Prod.fst).Nodup := by
    have hperm := (List.perm_insertionSort entryKeyLe
      (c1.filter (fun p => isTerminalStatus p.2.status))).map Prod.fst
    exact hperm.nodup_iff.mpr (keys_nodup_filter c1 _ hnd)
  have htake_nodup : ((((c1.filter (fun p => isTerminalStatus p.2.status)).insertionSort
      entryKeyLe).take (c1.length - MAX_TASKS)).map Prod.fst).Nodup := by
    rw [List.map_take]
    exact List.Nodup.sublist (List.take_sublist _ _) hsorted_keys_nodup
  have hfold := foldl_del_length
    (((c1.filter (fun p => isTerminalStatus p.2.status)).insertionSort
        entryKeyLe).take (c1.length - MAX_TASKS)) c1 hnd htake_nodup ?_
  · rw [hfold, List.length_take_of_le (by rw [hsortlen]; exact hterm)]
    omega
  · intro p hp
    exact List.mem_map.mpr ⟨p, (mem_take_sorted_terminal hp).1, rfl⟩

theorem cleanup_over_limit_oldest (c1 : TaskRegistry)
    (hnd : (c1.map Prod.fst).Nodup)
    (e1 : String × PlanningTask) (he1 : e1 ∈ c1)
    (hgone : e1.1 ∉ (cleanup_over_limit c1).map Prod.fst)
    (e2 : String × PlanningTask) (he2 : e2 ∈ cleanup_over_limit c1)
    (hterm2 : isTerminalStatus e2.2.status = true) :
    sortKey e1.2 ≤ sortKey e2.2 := by
  by_cases hlen : c1.length > MAX_TASKS
  · rw [cleanup_over_limit_eq_filter c1 hlen] at hgone he2
    have hmem2 := List.mem_filter.mp he2
    have he2notdel : e2.1 ∉ (((c1.filter
        (fun p => isTerminalStatus p.2.status)).insertionSort entryKeyLe).take
        (c1.length - MAX_TASKS)).map Prod.fst := by
      simpa using hmem2.2
    have he1del : e1.1 ∈ (((c1.filter
        (fun p => isTerminalStatus p.2.status)).insertionSort entryKeyLe).take
        (c1.length - MAX_TASKS)).map Prod.fst := by
      by_contra hnot
      exact hgone (List.mem_map.mpr
        ⟨e1, List.mem_filter.mpr ⟨he1, by simpa using hnot⟩, rfl⟩)
    rcases List.mem_map.mp he1del with ⟨p, hp, hpk⟩
    have hpe1 : p = e1 :=
      nodupKeys_eq_of_same_key hnd (mem_take_sorted_terminal hp).1 he1 hpk
    have he1take : e1 ∈ ((c1.filter
        (fun p => isTerminalStatus p.2.status)).insertionSort entryKeyLe).take
        (c1.length - MAX_TASKS) := hpe1 ▸ hp
    have he2sorted : e2 ∈ (c1.filter
        (fun p => isTerminalStatus p.2.status)).insertionSort entryKeyLe :=
      (List.perm_insertionSort entryKeyLe _).mem_iff.mpr
        (List.mem_filter.mpr ⟨hmem2.1, hterm2⟩)
    have he2drop : e2 ∈ ((c1.filter
        (fun p => isTerminalStatus p.2.status)).insertionSort entryKeyLe).drop
        (c1.length - MAX_TASKS) := by
      rcases List.mem_append.mp (show e2 ∈ (((c1.filter
          (fun p => isTerminalStatus p.2.status)).insertionSort entryKeyLe).take
            (c1.length - MAX_TASKS)) ++ (((c1.filter
          (fun p => isTerminalStatus p.2.status)).insertionSort entryKeyLe).drop
            (c1.length - MAX_TASKS)) by
        rw [List.take_append_drop]
        exact he2sorted) with hin | hin
      · exact absurd (List.mem_map.mpr ⟨e2, hin, rfl⟩) he2notdel
      · exact hin
    have hsorted : List.Sorted entryKeyLe ((c1.filter
        (fun p => isTerminalStatus p.2.status)).insertionSort entryKeyLe) :=
      List.sorted_insertionSort entryKeyLe _
    exact List.Sorted.rel_of_mem_take_of_mem_drop hsorted he1take he2drop
  · rw [cleanup_over_limit_eq_of_le c1 hlen] at hgone
    exact absurd (List.mem_map.mpr ⟨e1, he1, rfl⟩) hgone

theorem ttlExpired_false_of_nonterminal (now : ℚ) (t : PlanningTask)
    (h : isTerminalStatus t.status = false) : ttlExpired now t = false := by
  rw [ttlExpired, h]
  rfl

theorem ttlExpired_true (now : ℚ) (t : PlanningTask) (s0 : ℚ)
    (hterm : isTerminalStatus t.status = true) (hstart : t.start_time = some s0)
    (hs0 : s0 ≠ 0) (hgt : now - s0 > TASK_TTL_SECONDS) :
    ttlExpired now t = true := by
  rw [ttlExpired, hterm, hstart]
  simp [hs0, hgt]

theorem cleanup_ttl_keeps_nonterminal (now : ℚ) (reg : TaskRegistry)
    (e : String × PlanningTask) (he : e ∈ reg)
    (hterm : isTerminalStatus e.2.status = false) :
    e ∈ cleanup_ttl now reg :=
  List.mem_filter.mpr ⟨he, by rw [ttlExpired_false_of_nonterminal now e.2 hterm]; rfl⟩

theorem cleanup_ttl_removes_expired (now : ℚ) (reg : TaskRegistry)
    (hnd : (reg.map Prod.fst).Nodup) (k : String) (t : PlanningTask)
    (hmem : (k, t) ∈ reg) (hexp : ttlExpired now t = true) :
    k ∉ (cleanup_ttl now reg).map Prod.fst := by
  intro hk
  rcases List.mem_map.mp hk with ⟨q, hq, hqk⟩
  have hqfilter := List.mem_filter.mp hq
  have hqeq : q = (k, t) := nodupKeys_eq_of_same_key hnd hqfilter.1 hmem hqk
  have h2 := hqfilter.2
  rw [hqeq] at h2
  simp [hexp] at h2

/-- C3: eviction (run at the start of every create) removes a task from the
single-step registry only if its status is terminal: (i) every non-terminal
task survives `_cleanup_old_tasks` unchanged; (ii) every terminal task whose
(truthy) `start_time` lies more than `TASK_TTL_SECONDS` in the past is
removed; (iii) if the registry still exceeds `MAX_TASKS` after the TTL pass
and enough terminal tasks remain, the oldest terminal tasks by start time are
removed until exactly `MAX_TASKS` remain; (iv) every task removed by the
over-limit pass is at least as old (by start-time key) as every terminal
task kept; (v) with `MAX_TASKS + 1` terminal tasks all older than the TTL,
the next `create_task` leaves the registry with at most `MAX_TASKS` tasks. -/
theorem C3_eviction_only_terminal :
    (∀ (now : ℚ) (reg : TaskRegistry), (reg.map Prod.fst).Nodup →
       ∀ e ∈ reg, isTerminalStatus e.2.status = false →
         e ∈ cleanup_old_tasks now reg) ∧
    (∀ (now : ℚ) (reg : TaskRegistry), (reg.map Prod.fst).Nodup →
       ∀ (k : String) (t : PlanningTask) (s0 : ℚ), (k, t) ∈ reg →
         isTerminalStatus t.status = true → t.start_time = some s0 → s0 ≠ 0 →
         now - s0 > TASK_TTL_SECONDS →
         k ∉ (cleanup_old_tasks now reg).map Prod.fst) ∧
    (∀ (now : ℚ) (reg : TaskRegistry), (reg.map Prod.fst).Nodup →
       (cleanup_ttl now reg).length > MAX_TASKS →
       (cleanup_ttl now reg).length - MAX_TASKS ≤
         ((cleanup_ttl now reg).filter
           (fun p => isTerminalStatus p.2.status)).length →
       (cleanup_old_tasks now reg).length = MAX_TASKS) ∧
    (∀ (now : ℚ) (reg : TaskRegistry), (reg.map Prod.fst).Nodup →
       ∀ e1 ∈ cleanup_ttl now reg,
         e1.1 ∉ (cleanup_old_tasks now reg).map Prod.fst →
         ∀ e2 ∈ cleanup_old_tasks now reg,
           isTerminalStatus e2.2.status = true →
           sortKey e1.2 ≤ sortKey e2.2) ∧
    (∀ (now : ℚ) (task_id : String) (reg : TaskRegistry),
       reg.length = MAX_TASKS + 1 →
       (∀ p ∈ reg, isTerminalStatus p.2.status = true ∧
          ∃ s0, p.2.start_time = some s0 ∧ s0 ≠ 0 ∧
            now - s0 > TASK_TTL_SECONDS) →
       (create_task now task_id reg).length ≤ MAX_TASKS) := by
  refine ⟨?_, ?_, ?_, ?_, ?_⟩
  · intro now reg hnd e he hterm
    exact cleanup_over_limit_keeps_nonterminal (cleanup_ttl now reg)
      (keys_nodup_filter reg _ hnd) e
      (cleanup_ttl_keeps_nonterminal now reg e he hterm) hterm
  · intro now reg hnd k t s0 hmem hterm hstart hs0 hgt hk
    exact cleanup_ttl_removes_expired now reg hnd k t hmem
      (ttlExpired_true now t s0 hterm hstart hs0 hgt)
      (cleanup_over_limit_keys_subset (cleanup_ttl now reg) k hk)
  · intro now reg hnd hlen hterm
    exact cleanup_over_limit_length (cleanup_ttl now reg)
      (keys_nodup_filter reg _ hnd) hlen hterm
  · intro now reg hnd e1 he1 hgone e2 he2 hterm2
    exact cleanup_over_limit_oldest (cleanup_ttl now reg)
      (keys_nodup_filter reg _ hnd) e1 he1 hgone e2 he2 hterm2
  · intro now task_id reg _ hall
    have hc1 : cleanup_ttl now reg = [] := by
      rw [cleanup_ttl, List.filter_eq_nil_iff]
      intro p hp
      rcases hall p hp with ⟨hterm, s0, hstart, hs0, hgt⟩
      rw [ttlExpired_true now p.2 s0 hterm hstart hs0 hgt]
      decide
    have hclean : cleanup_old_tasks now reg = [] := by
      rw [cleanup_old_tasks, hc1, cleanup_over_limit_eq_of_le _ (by decide)]
    rw [create_task, hclean]
    simp [dictSetTask, MAX_TASKS]

theorem C3_eviction_only_terminal_witness :
    (create_task 5000 (mkId (MAX_TASKS + 1)) wExpiredReg).length ≤ MAX_TASKS := by
  refine C3_eviction_only_terminal.2.2.2.2 5000 (mkId (MAX_TASKS + 1))
    wExpiredReg ?_ ?_
  · simp [wExpiredReg]
  · intro p hp
    rcases List.mem_map.mp hp with ⟨n, _, hpe⟩
    rw [← hpe]
    exact ⟨(by decide : isTerminalStatus wOldDoneTask.status = true), 1, rfl,
      one_ne_zero, by norm_num [TASK_TTL_SECONDS]⟩

-- Rounding helpers ----------------------------------------------------------

theorem ratFloor_eq_intFloor (q : ℚ) : Rat.floor q = ⌊q⌋ := rfl

theorem round3_mono {a b : ℚ} (h : a ≤ b) : round3 a ≤ round3 b := by
  rw [round3, round3, ratFloor_eq_intFloor, ratFloor_eq_intFloor]
  have hfloor : ⌊a * 1000 + 1/2⌋ ≤ ⌊b * 1000 + 1/2⌋ :=
    Int.floor_mono (by linarith)
  have : ((⌊a * 1000 + 1/2⌋ : ℤ) : ℚ) ≤ ((⌊b * 1000 + 1/2⌋ : ℤ) : ℚ) :=
    Int.cast_le.mpr hfloor
  linarith

theorem round4_mono {a b : ℚ} (h : a ≤ b) : round4 a ≤ round4 b := by
  rw [round4, round4, ratFloor_eq_intFloor, ratFloor_eq_intFloor]
  have hfloor : ⌊a * 10000 + 1/2⌋ ≤ ⌊b * 10000 + 1/2⌋ :=
    Int.floor_mono (by linarith)
  have : ((⌊a * 10000 + 1/2⌋ : ℤ) : ℚ) ≤ ((⌊b * 10000 + 1/2⌋ : ℤ) : ℚ) :=
    Int.cast_le.mpr hfloor
  linarith

theorem round3_thousandth (z : ℤ) : round3 ((z : ℚ) / 1000) = (z : ℚ) / 1000 := by
  rw [round3, ratFloor_eq_intFloor]
  have : (z : ℚ) / 1000 * 1000 + 1/2 = (z : ℚ) + 1/2 := by ring
  rw [this]
  have hfl : ⌊(z : ℚ) + 1/2⌋ = z + ⌊(1/2 : ℚ)⌋ := Int.floor_int_add z (1/2)
  rw [hfl]
  norm_num

theorem round4_tenthousandth (z : ℤ) :
    round4 ((z : ℚ) / 10000) = (z : ℚ) / 10000 := by
  rw [round4, ratFloor_eq_intFloor]
  have : (z : ℚ) / 10000 * 10000 + 1/2 = (z : ℚ) + 1/2 := by ring
  rw [this]
  have hfl : ⌊(z : ℚ) + 1/2⌋ = z + ⌊(1/2 : ℚ)⌋ := Int.floor_int_add z (1/2)
  rw [hfl]
  norm_num

-- CEM loop structure --------------------------------------------------------

theorem cemStep_inv {sample : ℕ → List (List ℚ)} {score : List (List ℚ) → List ℚ}
    {stdFn : List (List ℚ) → List ℚ} {ns ni : ℕ} {lo hi : List ℚ} {i : ℕ}
    {st st' : CEMState} {brk : Bool}
    (h : cemStep sample score stdFn ns ni lo hi i st = some (st', brk)) :
    ∃ b', st'.best_energy = some b' ∧
      st'.energy_history = st.energy_history ++ [round3 b'] ∧
      (∀ b, st.best_energy = some b → b' ≤ b) ∧
      brk = convStop i st'.energy_history := by
  rw [cemStep] at h
  split at h
  · dsimp only at h
    rcases hhead : (((sample i).map (clipVec lo hi)).zip
        (score ((sample i).map (clipVec lo hi)))).insertionSort energyLe
        |>.take (num_elite_at ns ni i) |>.head? with _ | ⟨a0, e0⟩
    · rw [hhead] at h; cases h
    · rw [hhead] at h
      rcases hbest : st.best_energy with _ | b
      · rw [hbest] at h
        cases h
        refine ⟨e0, rfl, rfl, ?_, rfl⟩
        intro b hb
        simp [hbest] at hb
      · rw [hbest] at h
        dsimp only at h
        by_cases hlt : e0 < b
        · rw [if_pos hlt] at h
          cases h
          refine ⟨e0, rfl, rfl, ?_, rfl⟩
          intro b' hb'
          simp [hbest] at hb'
          exact hb' ▸ le_of_lt hlt
        · rw [if_neg hlt] at h
          cases h
          refine ⟨b, rfl, rfl, ?_, rfl⟩
          intro b' hb'
          simp [hbest] at hb'
          exact hb' ▸ le_refl b
  · cases h

theorem mem_of_getLastQ {α : Type _} {l : List α} {x : α}
    (h : x ∈ l.getLast?) : x ∈ l := by
  rcases List.mem_getLast?_eq_getLast h with ⟨hne, hx⟩
  rw [hx]
  exact List.getLast_mem hne

theorem cemFinish_inv {is_ac : Bool} {ns ni : ℕ} {st : CEMState}
    {res : CEMResult} (h : cemFinish is_ac ns ni st = some res) :
    ∃ best, st.best_energy = some best ∧
      res.energy_history = st.energy_history ∧
      res.confidence = round3 (cemConfidence best
        (st.energy_history.headD best) (vecAvg st.action_std)) ∧
      res.energy = round3 best := by
  rw [cemFinish] at h
  rcases hbest : st.best_energy with _ | best
  · rw [hbest] at h; cases h
  · rw [hbest] at h
    dsimp only at h
    cases h
    exact ⟨best, rfl, rfl, rfl, rfl⟩

theorem cemRun_hist_inv {sample : ℕ → List (List ℚ)}
    {score stdFn : List (List ℚ) → List ℚ} {ns ni : ℕ} {lo hi : List ℚ} :
    ∀ (fuel i : ℕ) (st st' : CEMState),
      cemRun sample score stdFn ns ni lo hi i fuel st = some st' →
      st.energy_history.Chain' (fun a b => b ≤ a) →
      (∀ b, st.best_energy = some b → ∀ x ∈ st.energy_history, round3 b ≤ x) →
      (st.best_energy = none → st.energy_history = []) →
      st'.energy_history.Chain' (fun a b => b ≤ a) := by
  intro fuel
  induction fuel with
  | zero =>
      intro i st st' h h1 _ _
      cases h
      exact h1
  | succ fuel ih =>
      intro i st st' h h1 h2 h3
      rw [cemRun] at h
      rcases hstep : cemStep sample score stdFn ns ni lo hi i st with _ | ⟨st1, brk⟩
      · rw [hstep] at h; cases h
      · obtain ⟨b', hb', hhist, hle, _⟩ := cemStep_inv hstep
        have hlast : ∀ x ∈ st.energy_history.getLast?, round3 b' ≤ x := by
          intro x hx
          have hxmem : x ∈ st.energy_history := mem_of_getLastQ hx
          rcases hbest : st.best_energy with _ | b
          · rw [h3 hbest] at hxmem; cases hxmem
          · exact le_trans (round3_mono (hle b hbest)) (h2 b hbest x hxmem)
        have h1' : st1.energy_history.Chain' (fun a b => b ≤ a) := by
          rw [hhist]
          refine List.chain'_append.mpr ⟨h1, List.chain'_singleton _, ?_⟩
          intro x hx y hy
          have : round3 b' = y := by simpa using hy
          rw [← this]
          exact hlast x hx
        have h2' : ∀ b, st1.best_energy = some b →
            ∀ x ∈ st1.energy_history, round3 b ≤ x := by
          intro b hb x hx
          rw [hb'] at hb
          cases hb
          rw [hhist] at hx
          rcases List.mem_append.mp hx with hx1 | hx1
          · rcases hbest : st.best_energy with _ | b0
            · rw [h3 hbest] at hx1; cases hx1
            · exact le_trans (round3_mono (hle b0 hbest)) (h2 b0 hbest x hx1)
          · have : x = round3 b' := by simpa using hx1
            rw [this]
        have h3' : st1.best_energy = none → st1.energy_history = [] := by
          intro habs
          rw [hb'] at habs
          cases habs
        rw [hstep] at h
        cases brk
        · exact ih (i + 1) st1 st' h h1' h2' h3'
        · cases h
          exact h1'

/-- C7: the `energy_history` returned by `run_cem` is monotonically
non-increasing: every adjacent pair satisfies
`energy_history[i+1] ≤ energy_history[i]`, because each appended entry is the
(rounded) best energy seen so far and `best_energy` only updates to strictly
lower elite energies. -/
theorem C7_energy_history_monotone (sample : ℕ → List (List ℚ))
    (score stdFn : List (List ℚ) → List ℚ) (ns ni : ℕ) (ef : ℚ)
    (lo hi im : List ℚ) (ac : Bool) (res : CEMResult)
    (h : run_cem sample score stdFn ns ni ef lo hi ac im = some res) :
    res.energy_history.Chain' (fun a b => b ≤ a) := by
  rw [run_cem] at h
  rcases hrun : cemRun sample score stdFn ns ni lo hi 0 ni
      { action_mean := im,
        action_std := (hi.zip lo).map (fun p => (p.1 - p.2) / 4),
        best_action := List.replicate lo.length 0,
        best_energy := none, energy_history := [] } with _ | st
  · rw [hrun] at h; cases h
  · rw [hrun] at h
    obtain ⟨best, _, hhist, _, _⟩ := cemFinish_inv h
    rw [hhist]
    exact cemRun_hist_inv ni 0 _ st hrun List.chain'_nil
      (fun b hb => by cases hb) (fun _ => rfl)

-- Concrete CEM evaluation --------------------------------------------------

theorem round3_zero : round3 0 = 0 := by
  rw [round3, ratFloor_eq_intFloor]
  norm_num

theorem round4_zero : round4 0 = 0 := by
  rw [round4, ratFloor_eq_intFloor]
  norm_num

theorem round3_conf_val : round3 (1999/2500) = 4/5 := by
  rw [round3, ratFloor_eq_intFloor]
  norm_num

theorem round4_std_val : round4 (1/250) = 1/250 := by
  rw [round4, ratFloor_eq_intFloor]
  norm_num

theorem adaptive_elite_fraction_nonneg_progress (ni i : ℕ) :
    (0 : ℚ) ≤ (i : ℚ) / ((max 1 (ni - 1) : ℕ) : ℚ) := by positivity

theorem adaptive_elite_fraction_lt_one (ni i : ℕ) :
    adaptive_elite_fraction ni i < 1 := by
  rw [adaptive_elite_fraction]
  have hp := adaptive_elite_fraction_nonneg_progress ni i
  linarith

theorem num_elite_at_one (ni i : ℕ) : num_elite_at 1 ni i = 1 := by
  rw [num_elite_at, Nat.cast_one, one_mul]
  have h1 : adaptive_elite_fraction ni i < ((1 : ℤ) : ℚ) := by
    push_cast
    exact adaptive_elite_fraction_lt_one ni i
  have h2 : ⌊adaptive_elite_fraction ni i⌋ < 1 := Int.floor_lt.mpr h1
  have hfloor : Rat.floor (adaptive_elite_fraction ni i) ≤ 0 := by
    rw [ratFloor_eq_intFloor]
    omega
  rw [Int.toNat_of_nonpos hfloor]
  rfl

theorem wStep_eval (ni i : ℕ) (hist mean std : List ℚ) (be : Option ℚ)
    (hbe : be = none ∨ be = some 0) :
    cemStep wSample wScore wStdFn 1 ni [-1] [1] i
      { action_mean := mean, action_std := std, best_action := [0],
        best_energy := be, energy_history := hist }
      = some ({ action_mean := [0], action_std := [1/250], best_action := [0],
                best_energy := some 0, energy_history := hist ++ [0] },
              convStop i (hist ++ [0])) := by
  rw [cemStep]
  have hclip : ((wSample i).map (clipVec [-1] [1])) = [[0]] := by
    simp [wSample, clipVec, clipQ, List.range_succ]
  rw [hclip]
  have hscore : wScore [[0]] = [0] := rfl
  rw [hscore]
  have hlen : ([(0:ℚ)].length = ([[(0:ℚ)]] : List (List ℚ)).length) := rfl
  rw [if_pos hlen]
  dsimp only
  have hsort : (([[(0:ℚ)]].zip [(0:ℚ)]).insertionSort energyLe).take
      (num_elite_at 1 ni i) = [([0], 0)] := by
    rw [num_elite_at_one]
    rfl
  rw [hsort]
  have hhead : ([(([0] : List ℚ), (0:ℚ))]).head? = some ([0], 0) := rfl
  rw [hhead]
  dsimp only
  have hstd : (wStdFn (List.map (fun p => p.1)
      [(([0] : List ℚ), (0:ℚ))])).map (fun x => x + 1/1000000) = [1/250] := by
    rw [wStdFn]
    norm_num
  have hmean : vecMean (List.map (fun p => p.1)
      [(([0] : List ℚ), (0:ℚ))]) = [0] := by
    norm_num [vecMean]
  rcases hbe with hbe | hbe
  · rw [hbe]
    dsimp only
    rw [hstd, hmean, round3_zero]
  · rw [hbe]
    dsimp only
    rw [if_neg (lt_irrefl 0), hstd, hmean, round3_zero]

theorem convStop_early (i : ℕ) (hist : List ℚ) (h : i < convergence_window) :
    convStop i hist = false := by
  rw [convStop]
  simp [Nat.not_le.mpr h]

theorem convStop_zeros4 : convStop 3 [0, 0, 0, 0] = true := by
  rw [convStop, convImprovement]
  norm_num [convergence_window, convergence_threshold]

theorem cemConfidence_val : cemConfidence 0 0 (1/250) = 1999/2500 := by
  rw [cemConfidence]
  norm_num

theorem wCemRun1_loop :
    cemRun wSample wScore wStdFn 1 1 [-1] [1] 0 1
      { action_mean := [0], action_std := [1/2], best_action := [0],
        best_energy := none, energy_history := [] }
      = some { action_mean := [0], action_std := [1/250], best_action := [0],
               best_energy := some 0, energy_history := [0] } := by
  have h0 := wStep_eval 1 0 [] [0] [1/2] none (Or.inl rfl)
  rw [List.nil_append] at h0
  rw [convStop_early 0 [0] (by decide)] at h0
  simp only [cemRun, h0]

theorem wCemRun5_loop :
    cemRun wSample wScore wStdFn 1 5 [-1] [1] 0 5
      { action_mean := [0], action_std := [1/2], best_action := [0],
        best_energy := none, energy_history := [] }
      = some { action_mean := [0], action_std := [1/250], best_action := [0],
               best_energy := some 0, energy_history := [0, 0, 0, 0] } := by
  have h0 := wStep_eval 5 0 [] [0] [1/2] none (Or.inl rfl)
  rw [List.nil_append] at h0
  rw [convStop_early 0 [0] (by decide)] at h0
  have h1 := wStep_eval 5 1 [0] [0] [1/250] (some 0) (Or.inr rfl)
  rw [show ([(0:ℚ)] ++ [0]) = [0, 0] from rfl] at h1
  rw [convStop_early 1 [0, 0] (by decide)] at h1
  have h2 := wStep_eval 5 2 [0, 0] [0] [1/250] (some 0) (Or.inr rfl)
  rw [show ([(0:ℚ), 0] ++ [0]) = [0, 0, 0] from rfl] at h2
  rw [convStop_early 2 [0, 0, 0] (by decide)] at h2
  have h3 := wStep_eval 5 3 [0, 0, 0] [0] [1/250] (some 0) (Or.inr rfl)
  rw [show ([(0:ℚ), 0, 0] ++ [0]) = [0, 0, 0, 0] from rfl] at h3
  rw [convStop_zeros4] at h3
  simp only [cemRun, h0, h1, h2, h3]

theorem wCemRes1_eval :
    run_cem wSample wScore wStdFn 1 1 (1/10) [-1] [1] true [0]
      = some { action := [0], confidence := 4/5, energy := 0,
               energy_history := [0], final_std := [1/250],
               samples_evaluated := 1, is_ac_model := true,
               energy_threshold := 3, passes_threshold := true,
               normalized_distance := 0 } := by
  rw [run_cem]
  have hstd0 : (([1].zip [-1] : List (ℚ × ℚ)).map (fun p => (p.1 - p.2) / 4))
      = [1/2] := by norm_num
  rw [hstd0]
  rw [show (List.replicate ([(-1 : ℚ)].length) (0:ℚ)) = [0] from rfl]
  rw [wCemRun1_loop]
  rw [Option.some_bind, cemFinish]
  dsimp only
  have havg : vecAvg [1/250] = 1/250 := by norm_num [vecAvg]
  rw [havg]
  rw [show (([(0:ℚ)]).headD 0) = 0 from rfl]
  rw [cemConfidence_val, round3_conf_val, round3_zero]
  rw [show (List.map round4 [(0:ℚ)]) = [round4 0] from rfl]
  rw [show (List.map round4 [(1:ℚ)/250]) = [round4 (1/250)] from rfl]
  rw [round4_zero, round4_std_val]
  norm_num [round3_zero]

-- Convergence characterization ----------------------------------------------

theorem cemRun_conv_characterization {sample : ℕ → List (List ℚ)}
    {score stdFn : List (List ℚ) → List ℚ} {ns ni : ℕ} {lo hi : List ℚ} :
    ∀ (fuel i : ℕ) (st st' : CEMState),
      cemRun sample score stdFn ns ni lo hi i fuel st = some st' →
      st.energy_history.length = i →
      st'.energy_history.take i = st.energy_history ∧
      st'.energy_history.length ≤ i + fuel ∧
      i ≤ st'.energy_history.length ∧
      (∀ k, i ≤ k → k + 1 < st'.energy_history.length →
        convStop k (st'.energy_history.take (k + 1)) = false) ∧
      (st'.energy_history.length < i + fuel →
        convStop (st'.energy_history.length - 1) st'.energy_history = true) := by
  intro fuel
  induction fuel with
  | zero =>
      intro i st st' h hlen
      cases h
      refine ⟨by rw [← hlen]; exact List.take_length _, by omega, by omega, ?_, ?_⟩
      · intro k hk hk1
        omega
      · intro hlt
        omega
  | succ fuel ih =>
      intro i st st' h hlen
      rw [cemRun] at h
      rcases hstep : cemStep sample score stdFn ns ni lo hi i st with _ | ⟨st1, brk⟩
      · rw [hstep] at h; cases h
      · obtain ⟨b', _, hhist, _, hbrk⟩ := cemStep_inv hstep
        have hlen1 : st1.energy_history.length = i + 1 := by
          rw [hhist, List.length_append, hlen]
          rfl
        have htake1 : st1.energy_history.take i = st.energy_history := by
          rw [hhist, ← hlen, List.take_left]
        rw [hstep] at h
        cases brk
        · have hrec := ih (i + 1) st1 st' h hlen1
          obtain ⟨rtake, rlen, rge, rmid, rfin⟩ := hrec
          refine ⟨?_, by omega, by omega, ?_, ?_⟩
          · have : st'.energy_history.take i
                = (st'.energy_history.take (i + 1)).take i := by
              rw [List.take_take]
              congr 1
              omega
            rw [this, rtake, htake1]
          · intro k hk hk1
            rcases Nat.eq_or_lt_of_le hk with hk' | hk'
            · subst hk'
              rw [rtake]
              exact hbrk.symm
            · exact rmid k hk' hk1
          · intro hlt
            exact rfin (by omega)
        · cases h
          refine ⟨htake1, by omega, by omega, ?_, ?_⟩
          · intro k hk hk1
            rw [hlen1] at hk1
            omega
          · intro _
            rw [hlen1]
            simp only [Nat.add_sub_cancel]
            exact hbrk.symm

theorem cemStep_const {sample : ℕ → List (List ℚ)}
    {score stdFn : List (List ℚ) → List ℚ} {ns ni : ℕ} {lo hi : List ℚ}
    {c : ℚ} {i : ℕ} (hs : sample i ≠ [])
    (hscore : ∀ acts, score acts = List.replicate acts.length c)
    (st : CEMState) (hbest : st.best_energy = none ∨ st.best_energy = some c) :
    ∃ st', cemStep sample score stdFn ns ni lo hi i st
        = some (st', convStop i (st.energy_history ++ [round3 c])) ∧
      st'.best_energy = some c ∧
      st'.energy_history = st.energy_history ++ [round3 c] := by
  rw [cemStep, hscore ((sample i).map (clipVec lo hi)),
    if_pos (List.length_replicate _ _)]
  dsimp only
  have hanil : (sample i).map (clipVec lo hi) ≠ [] :=
    fun hmap => hs (List.map_eq_nil_iff.mp hmap)
  have hplen : (((sample i).map (clipVec lo hi)).zip
      (List.replicate ((sample i).map (clipVec lo hi)).length c)).length
      = ((sample i).map (clipVec lo hi)).length := by
    rw [List.length_zip, List.length_replicate, min_self]
  have hsorne : (((sample i).map (clipVec lo hi)).zip
      (List.replicate ((sample i).map (clipVec lo hi)).length c)).insertionSort
      energyLe ≠ [] := by
    intro hnil
    have hl := (List.perm_insertionSort energyLe
      (((sample i).map (clipVec lo hi)).zip
        (List.replicate ((sample i).map (clipVec lo hi)).length c))).length_eq
    rw [hnil, hplen] at hl
    exact hanil (List.length_eq_zero.mp hl.symm)
  have hsor : ∀ p ∈ (((sample i).map (clipVec lo hi)).zip
      (List.replicate ((sample i).map (clipVec lo hi)).length c)).insertionSort
      energyLe, p.2 = c := by
    intro p hp
    have hpz := (List.perm_insertionSort energyLe _).mem_iff.mp hp
    exact List.eq_of_mem_replicate (List.of_mem_zip hpz).2
  obtain ⟨x, xs, hcons⟩ := List.exists_cons_of_ne_nil hsorne
  obtain ⟨a0, e0⟩ := x
  have he0 : e0 = c := hsor (a0, e0) (by rw [hcons]; exact List.mem_cons_self _ _)
  subst he0
  obtain ⟨m, hm⟩ : ∃ m, num_elite_at ns ni i = m + 1 := by
    have h1 : 1 ≤ num_elite_at ns ni i := le_max_left 1 _
    exact ⟨num_elite_at ns ni i - 1, by omega⟩
  rw [hcons, hm, List.take_succ_cons]
  simp only [List.head?_cons]
  rcases hbest with hbest | hbest
  · rw [hbest]
    dsimp only
    exact ⟨_, rfl, rfl, rfl⟩
  · rw [hbest]
    dsimp only
    rw [if_neg (lt_irrefl e0)]
    exact ⟨_, rfl, rfl, rfl⟩

theorem convStop_const (r : ℚ) : convStop 3 [r, r, r, r] = true := by
  rw [convStop, convImprovement]
  norm_num [convergence_window, convergence_threshold, sub_self, zero_div]

theorem cemRun_const_stops {sample : ℕ → List (List ℚ)}
    {score stdFn : List (List ℚ) → List ℚ} {ns ni : ℕ} {lo hi : List ℚ}
    {c : ℚ} (hs : ∀ j, sample j ≠ [])
    (hscore : ∀ acts, score acts = List.replicate acts.length c)
    (m : ℕ) (mean0 std0 ba0 : List ℚ) :
    ∃ st', cemRun sample score stdFn ns ni lo hi 0 (m + 5)
        { action_mean := mean0, action_std := std0, best_action := ba0,
          best_energy := none, energy_history := [] } = some st' ∧
      st'.best_energy = some c ∧
      st'.energy_history = [round3 c, round3 c, round3 c, round3 c] := by
  obtain ⟨st1, hstep0, hb1, hh1⟩ := @cemStep_const sample score stdFn ns ni
    lo hi c 0 (hs 0) hscore
    { action_mean := mean0, action_std := std0, best_action := ba0,
      best_energy := none, energy_history := [] } (Or.inl rfl)
  dsimp only at hstep0 hh1
  rw [List.nil_append] at hstep0 hh1
  rw [convStop_early 0 [round3 c] (by decide)] at hstep0
  obtain ⟨st2, hstep1, hb2, hh2⟩ := @cemStep_const sample score stdFn ns ni
    lo hi c 1 (hs 1) hscore st1 (Or.inr hb1)
  rw [hh1] at hstep1 hh2
  rw [show ([round3 c] ++ [round3 c]) = [round3 c, round3 c] from rfl]
    at hstep1 hh2
  rw [convStop_early 1 [round3 c, round3 c] (by decide)] at hstep1
  obtain ⟨st3, hstep2, hb3, hh3⟩ := @cemStep_const sample score stdFn ns ni
    lo hi c 2 (hs 2) hscore st2 (Or.inr hb2)
  rw [hh2] at hstep2 hh3
  rw [show ([round3 c, round3 c] ++ [round3 c])
      = [round3 c, round3 c, round3 c] from rfl] at hstep2 hh3
  rw [convStop_early 2 [round3 c, round3 c, round3 c] (by decide)] at hstep2
  obtain ⟨st4, hstep3, hb4, hh4⟩ := @cemStep_const sample score stdFn ns ni
    lo hi c 3 (hs 3) hscore st3 (Or.inr hb3)
  rw [hh3] at hstep3 hh4
  rw [show ([round3 c, round3 c, round3 c] ++ [round3 c])
      = [round3 c, round3 c, round3 c, round3 c] from rfl] at hstep3 hh4
  rw [convStop_const (round3 c)] at hstep3
  refine ⟨st4, ?_, hb4, hh4⟩
  simp only [cemRun, hstep0, hstep1, hstep2, hstep3]

/-- C4: `run_cem` records one energy per completed iteration and stops exactly
at the first iteration whose early-convergence check fires; the check
(`convStop`) compares, once at least `convergence_window` (3) prior
iterations have been recorded, the oldest and newest energies of the trailing
window of 3 recorded entries: relative improvement below
`convergence_threshold` (1%) stops the loop.  Consequently (second part), for
a scoring function with constant output and `num_iterations > 4` the loop
stops at 0-based iteration 3 (the 4th), leaving exactly 4 entries in
`energy_history`. -/
theorem C4_early_convergence :
    (∀ (sample : ℕ → List (List ℚ)) (score stdFn : List (List ℚ) → List ℚ)
        (ns ni : ℕ) (ef : ℚ) (lo hi im : List ℚ) (ac : Bool) (res : CEMResult),
       run_cem sample score stdFn ns ni ef lo hi ac im = some res →
       res.energy_history.length ≤ ni ∧
       (∀ k, k + 1 < res.energy_history.length →
         convStop k (res.energy_history.take (k + 1)) = false) ∧
       (res.energy_history.length < ni →
         convStop (res.energy_history.length - 1) res.energy_history = true)) ∧
    (∀ (sample : ℕ → List (List ℚ)) (score stdFn : List (List ℚ) → List ℚ)
        (ns ni : ℕ) (ef : ℚ) (lo hi im : List ℚ) (ac : Bool) (c : ℚ),
       (∀ j, sample j ≠ []) →
       (∀ acts, score acts = List.replicate acts.length c) →
       4 < ni →
       ∃ res, run_cem sample score stdFn ns ni ef lo hi ac im = some res ∧
         res.energy_history = [round3 c, round3 c, round3 c, round3 c] ∧
         res.energy_history.length = 4) := by
  constructor
  · intro sample score stdFn ns ni ef lo hi im ac res h
    rw [run_cem] at h
    rcases hrun : cemRun sample score stdFn ns ni lo hi 0 ni
        { action_mean := im,
          action_std := (hi.zip lo).map (fun p => (p.1 - p.2) / 4),
          best_action := List.replicate lo.length 0,
          best_energy := none, energy_history := [] } with _ | st
    · rw [hrun] at h; cases h
    · rw [hrun] at h
      obtain ⟨best, _, hhist, _, _⟩ := cemFinish_inv h
      obtain ⟨_, hlen, _, hmid, hfin⟩ :=
        cemRun_conv_characterization ni 0 _ st hrun rfl
      rw [hhist]
      exact ⟨by omega, fun k hk1 => hmid k (Nat.zero_le k) hk1,
        fun hlt => hfin (by omega)⟩
  · intro sample score stdFn ns ni ef lo hi im ac c hs hscore hni
    obtain ⟨m, rfl⟩ : ∃ m, ni = m + 5 := ⟨ni - 5, by omega⟩
    obtain ⟨st', hrun, hb, hh⟩ := cemRun_const_stops hs hscore m im
      ((hi.zip lo).map (fun p => (p.1 - p.2) / 4)) (List.replicate lo.length 0)
    refine ⟨{ action := st'.best_action.map round4,
              confidence := round3 (cemConfidence c
                (st'.energy_history.headD c) (vecAvg st'.action_std)),
              energy := round3 c,
              energy_history := st'.energy_history,
              final_std := st'.action_std.map round4,
              samples_evaluated := ns * (m + 5),
              is_ac_model := ac,
              energy_threshold := 3,
              passes_threshold := decide (c < 3),
              normalized_distance := round3 (min 1 (c / 10)) }, ?_, by rw [hh],
            by rw [hh]; rfl⟩
    rw [run_cem, hrun, Option.some_bind, cemFinish, hb]

theorem C4_early_convergence_witness :
    (run_cem wSample wScore wStdFn 1 5 (1/10) [-1] [1] true [0]).map
      (fun r => r.energy_history.length) = some 4 := by
  obtain ⟨res, hres, _, hlen⟩ := C4_early_convergence.2 wSample wScore wStdFn
    1 5 (1/10) [-1] [1] [0] true 0 (fun j => by simp [wSample])
    (fun acts => rfl) (by decide)
  rw [hres, Option.map_some', hlen]

theorem C7_energy_history_monotone_witness :
    ({ action := [0], confidence := 4/5, energy := 0, energy_history := [0],
       final_std := [1/250], samples_evaluated := 1, is_ac_model := true,
       energy_threshold := 3, passes_threshold := true,
       normalized_distance := 0 } : CEMResult).energy_history.Chain'
      (fun a b => b ≤ a) :=
  C7_energy_history_monotone wSample wScore wStdFn 1 1 (1/10) [-1] [1] [0] true
    _ wCemRes1_eval

/-- C5: the elite fraction used at 0-based iteration `i` is
`0.20*(1-p) + 0.05*p` with `p = i / max(1, num_iterations-1)` (linear decay
from 20% at the first iteration to 5% at the last), the number of elites is
`max(1, floor(num_samples * fraction))`, and this schedule is used at every
iteration regardless of the `elite_fraction` argument: `run_cem` is
invariant under that argument. -/
theorem C5_adaptive_elite_schedule :
    (∀ (sample : ℕ → List (List ℚ)) (score stdFn : List (List ℚ) → List ℚ)
        (ns ni : ℕ) (ef ef' : ℚ) (lo hi im : List ℚ) (ac : Bool),
       run_cem sample score stdFn ns ni ef lo hi ac im
         = run_cem sample score stdFn ns ni ef' lo hi ac im) ∧
    (∀ ns ni i : ℕ, num_elite_at ns ni i
        = max 1 (Rat.floor ((ns : ℚ) *
            ((20/100) * (1 - (i : ℚ) / ((max 1 (ni - 1) : ℕ) : ℚ))
              + (5/100) * ((i : ℚ) / ((max 1 (ni - 1) : ℕ) : ℚ))))).toNat) ∧
    (∀ ni : ℕ, 2 ≤ ni → adaptive_elite_fraction ni 0 = 20/100 ∧
       adaptive_elite_fraction ni (ni - 1) = 5/100) := by
  refine ⟨?_, ?_, ?_⟩
  · intro sample score stdFn ns ni ef ef' lo hi im ac
    rfl
  · intro ns ni i
    rw [num_elite_at]
    congr 2
    rw [adaptive_elite_fraction]
    ring_nf
  · intro ni hni
    constructor
    · rw [adaptive_elite_fraction]
      norm_num
    · rw [adaptive_elite_fraction]
      rw [Nat.max_eq_right (show 1 ≤ ni - 1 by omega)]
      rw [div_self (show ((ni - 1 : ℕ) : ℚ) ≠ 0 from
        Nat.cast_ne_zero.mpr (by omega))]
      norm_num

theorem C5_adaptive_elite_schedule_witness :
    adaptive_elite_fraction 3 0 = 20/100 ∧
    adaptive_elite_fraction 3 2 = 5/100 :=
  C5_adaptive_elite_schedule.2.2 3 (by decide)

theorem round3_tenth : round3 (1/10) = 1/10 := by
  have h := round3_thousandth 100
  have e : ((100 : ℤ) : ℚ)/1000 = 1/10 := by norm_num
  rw [e] at h
  exact h

theorem round3_ninety_eight_hundredths : round3 (98/100) = 98/100 := by
  have h := round3_thousandth 980
  have e : ((980 : ℤ) : ℚ)/1000 = 98/100 := by norm_num
  rw [e] at h
  exact h

theorem cemConfidence_eq_claim (b init s : ℚ) :
    cemConfidence b init s = confidenceClaimFormula b init s := by
  rw [cemConfidence, confidenceClaimFormula]
  rw [mul_comm s (1/10)]

theorem cemConfidence_bounds (b init s : ℚ) :
    1/10 ≤ cemConfidence b init s ∧ cemConfidence b init s ≤ 98/100 := by
  rw [cemConfidence]
  constructor
  · exact le_min (by norm_num) (le_max_left _ _)
  · exact min_le_left _ _

/-- C9 (amended): the confidence returned by `run_cem` is the claimed
combination — `min(0.98, max(0.1, 0.5·max(0, 1 − best/10) + 0.3
+ min(0.2, max(0, initial − best)/5) − min(0.2, 0.1·mean(final_std))))` —
**rounded to 3 decimal places** (the source applies `round(confidence, 3)`
before returning), and for every successful run
`0.1 ≤ confidence ≤ 0.98`. -/
theorem C9_confidence_formula_rounded :
    (∀ (ac : Bool) (ns ni : ℕ) (st : CEMState) (res : CEMResult) (b : ℚ),
       st.best_energy = some b →
       cemFinish ac ns ni st = some res →
       res.confidence = round3 (confidenceClaimFormula b
         (st.energy_history.headD b) (vecAvg st.action_std)) ∧
       1/10 ≤ res.confidence ∧ res.confidence ≤ 98/100) ∧
    (∀ (sample : ℕ → List (List ℚ)) (score stdFn : List (List ℚ) → List ℚ)
        (ns ni : ℕ) (ef : ℚ) (lo hi im : List ℚ) (ac : Bool) (res : CEMResult),
       run_cem sample score stdFn ns ni ef lo hi ac im = some res →
       1/10 ≤ res.confidence ∧ res.confidence ≤ 98/100) := by
  have hcore : ∀ (ac : Bool) (ns ni : ℕ) (st : CEMState) (res : CEMResult),
      cemFinish ac ns ni st = some res →
      1/10 ≤ res.confidence ∧ res.confidence ≤ 98/100 := by
    intro ac ns ni st res h
    obtain ⟨best, _, _, hconf, _⟩ := cemFinish_inv h
    rw [hconf]
    obtain ⟨h1, h2⟩ := cemConfidence_bounds best (st.energy_history.headD best)
      (vecAvg st.action_std)
    constructor
    · rw [← round3_tenth]
      exact round3_mono h1
    · rw [← round3_ninety_eight_hundredths]
      exact round3_mono h2
  constructor
  · intro ac ns ni st res b hb h
    obtain ⟨best, hbest, _, hconf, _⟩ := cemFinish_inv h
    rw [hb] at hbest
    cases hbest
    refine ⟨?_, hcore ac ns ni st res h⟩
    rw [hconf, cemConfidence_eq_claim]
  · intro sample score stdFn ns ni ef lo hi im ac res h
    rw [run_cem] at h
    rcases hrun : cemRun sample score stdFn ns ni lo hi 0 ni
        { action_mean := im,
          action_std := (hi.zip lo).map (fun p => (p.1 - p.2) / 4),
          best_action := List.replicate lo.length 0,
          best_energy := none, energy_history := [] } with _ | st
    · rw [hrun] at h; cases h
    · rw [hrun] at h
      exact hcore ac ns ni st res h

theorem wCemFinish_eval : cemFinish true 1 1
    { action_mean := [0], action_std := [1/250], best_action := [0],
      best_energy := some 0, energy_history := [0] }
    = some { action := [0], confidence := 4/5, energy := 0,
             energy_history := [0], final_std := [1/250],
             samples_evaluated := 1, is_ac_model := true,
             energy_threshold := 3, passes_threshold := true,
             normalized_distance := 0 } := by
  rw [cemFinish]
  dsimp only
  have havg : vecAvg [1/250] = 1/250 := by norm_num [vecAvg]
  rw [havg]
  rw [show (([(0:ℚ)]).headD 0) = 0 from rfl]
  rw [cemConfidence_val, round3_conf_val, round3_zero]
  rw [show (List.map round4 [(0:ℚ)]) = [round4 0] from rfl]
  rw [show (List.map round4 [(1:ℚ)/250]) = [round4 (1/250)] from rfl]
  rw [round4_zero, round4_std_val]
  norm_num [round3_zero]

theorem C9_confidence_formula_rounded_witness :
    ({ action := [0], confidence := 4/5, energy := 0, energy_history := [0],
       final_std := [1/250], samples_evaluated := 1, is_ac_model := true,
       energy_threshold := 3, passes_threshold := true,
       normalized_distance := 0 } : CEMResult).confidence
      = round3 (confidenceClaimFormula 0 (([0] : List ℚ).headD 0)
          (vecAvg [1/250])) ∧
    (1 : ℚ)/10 ≤ 4/5 ∧ (4 : ℚ)/5 ≤ 98/100 := by
  have h := C9_confidence_formula_rounded.1 true 1 1
    { action_mean := [0], action_std := [1/250], best_action := [0],
      best_energy := some 0, energy_history := [0] } _ 0 rfl wCemFinish_eval
  exact ⟨h.1, h.2.1, h.2.2⟩

theorem C9_confidence_formula_counterexample :
    (run_cem wSample wScore wStdFn 1 1 (1/10) [-1] [1] true [0]).map
        (fun r => r.confidence) = some (4/5) ∧
    (run_cem wSample wScore wStdFn 1 1 (1/10) [-1] [1] true [0]).map
        (fun r => r.energy) = some 0 ∧
    (run_cem wSample wScore wStdFn 1 1 (1/10) [-1] [1] true [0]).map
        (fun r => r.final_std) = some [1/250] ∧
    confidenceClaimFormula 0 0 (1/250) = 1999/2500 ∧
    (4/5 : ℚ) ≠ 1999/2500 := by
  refine ⟨?_, ?_, ?_, ?_, by norm_num⟩
  · rw [wCemRes1_eval]; rfl
  · rw [wCemRes1_eval]; rfl
  · rw [wCemRes1_eval]; rfl
  · rw [← cemConfidence_eq_claim, cemConfidence_val]

-- Trajectory rollout characterization ---------------------------------------

theorem trajLoop_characterization (cemO : TrajCEMOracle) (predO : PredictOracle)
    (goal current : List ℚ) (initial_distance : ℚ) :
    ∀ (fuel i : ℕ) (acc : List TrajectoryStep) (last : Option StepCEMOut),
      (trajLoop cemO predO goal initial_distance fuel i
          (trajEmbAt cemO predO goal current i) acc last).1
        = trajEmbAt cemO predO goal current (i + fuel) ∧
      (trajLoop cemO predO goal initial_distance fuel i
          (trajEmbAt cemO predO goal current i) acc last).2.1
        = acc ++ (List.range' i fuel).map
            (trajStepAt cemO predO goal current initial_distance) := by
  intro fuel
  induction fuel with
  | zero =>
      intro i acc last
      exact ⟨rfl, by simp [trajLoop]⟩
  | succ fuel ih =>
      intro i acc last
      rw [trajLoop]
      have hemb' :
          (match predO i (trajEmbAt cemO predO goal current i)
              (cemO i (trajEmbAt cemO predO goal current i) goal).action with
           | some e => e
           | none => trajEmbAt cemO predO goal current i)
            = trajEmbAt cemO predO goal current (i + 1) := by
        rw [trajEmbAt]
      rw [hemb']
      have hstep :
          ({ step := i,
             action := (cemO i (trajEmbAt cemO predO goal current i) goal).action,
             energy := (cemO i (trajEmbAt cemO predO goal current i) goal).energy,
             confidence :=
               (cemO i (trajEmbAt cemO predO goal current i) goal).confidence,
             energy_history :=
               (cemO i (trajEmbAt cemO predO goal current i) goal).energy_history,
             distance_to_goal := round4 (embDist
               (trajEmbAt cemO predO goal current (i + 1)) goal),
             progress_ratio := round4 (progressRatio initial_distance (embDist
               (trajEmbAt cemO predO goal current (i + 1)) goal)) }
            : TrajectoryStep)
            = trajStepAt cemO predO goal current initial_distance i := rfl
      rw [hstep]
      have := ih (i + 1)
        (acc ++ [trajStepAt cemO predO goal current initial_distance i])
        (some (cemO i (trajEmbAt cemO predO goal current i) goal))
      refine ⟨?_, ?_⟩
      · rw [this.1]
        congr 1
        omega
      · rw [this.2]
        rw [List.range'_succ i fuel 1, List.map_cons, List.append_assoc]
        rfl

theorem run_trajectory_planning_characterization
    (cemO : TrajCEMOracle) (predO : PredictOracle) (current goal : List ℚ)
    (n : ℕ) :
    (run_trajectory_planning cemO predO current goal n).steps
      = (List.range n).map
          (trajStepAt cemO predO goal current (embDist current goal)) ∧
    (run_trajectory_planning cemO predO current goal n).steps.length = n ∧
    (run_trajectory_planning cemO predO current goal n).energy_trend
      = energyTrend n (embDist (trajEmbAt cemO predO goal current n) goal)
          (embDist current goal) ∧
    (run_trajectory_planning cemO predO current goal n).initial_distance
      = round4 (embDist current goal) ∧
    (run_trajectory_planning cemO predO current goal n).final_distance
      = round4 (embDist (trajEmbAt cemO predO goal current n) goal) := by
  have h0 : trajEmbAt cemO predO goal current 0 = current := rfl
  have h := trajLoop_characterization cemO predO goal current
    (embDist current goal) n 0 [] none
  rw [h0] at h
  obtain ⟨h1, h2⟩ := h
  rw [List.nil_append] at h2
  rw [show List.range' 0 n = List.range n from (List.range_eq_range' n).symm] at h2
  rw [Nat.zero_add] at h1
  have hlen : ((List.range n).map
      (trajStepAt cemO predO goal current (embDist current goal))).length = n := by
    rw [List.length_map, List.length_range]
  rw [run_trajectory_planning]
  dsimp only
  rw [h1, h2, hlen]
  exact ⟨rfl, rfl, rfl, rfl, rfl⟩

/-- C1: for every trajectory task (`num_steps ≥ 1`), the rollout performs, at
each step index `0..num_steps-1`, one CEM optimization whose inputs are the
current trajectory embedding and the goal embedding (`trajStepAt`/`trajEmbAt`
record exactly that call structure); it then advances the trajectory
embedding via `predict_next_embedding` on the best action found, and if that
call fails (`none`) the step result is still recorded and later steps
continue from the unchanged embedding: the run always yields exactly
`num_steps` recorded steps. -/
theorem C1_trajectory_rollout (cemO : TrajCEMOracle) (predO : PredictOracle)
    (current goal : List ℚ) (num_steps : ℕ) (hn : 1 ≤ num_steps) :
    (run_trajectory_planning cemO predO current goal num_steps).steps.length
      = num_steps ∧
    (∀ i, i < num_steps →
      (run_trajectory_planning cemO predO current goal num_steps).steps.getD i
          default
        = trajStepAt cemO predO goal current (embDist current goal) i) ∧
    (∀ i, predO i (trajEmbAt cemO predO goal current i)
        (cemO i (trajEmbAt cemO predO goal current i) goal).action = none →
      trajEmbAt cemO predO goal current (i + 1)
        = trajEmbAt cemO predO goal current i) ∧
    (∀ i e, predO i (trajEmbAt cemO predO goal current i)
        (cemO i (trajEmbAt cemO predO goal current i) goal).action = some e →
      trajEmbAt cemO predO goal current (i + 1) = e) := by
  obtain ⟨hsteps, hlen, _, _, _⟩ :=
    run_trajectory_planning_characterization cemO predO current goal num_steps
  refine ⟨hlen, ?_, ?_, ?_⟩
  · intro i hi
    rw [hsteps, List.getD_eq_getElem?_getD, List.getElem?_map,
      List.getElem?_range hi]
    rfl
  · intro i hnone
    rw [trajEmbAt, hnone]
  · intro i e hsome
    rw [trajEmbAt, hsome]

theorem C1_trajectory_rollout_witness :
    (run_trajectory_planning wCemT wPredFail [0] [1] 2).steps.length = 2 ∧
    trajEmbAt wCemT wPredFail [1] [0] 1 = trajEmbAt wCemT wPredFail [1] [0] 0 := by
  have h := C1_trajectory_rollout wCemT wPredFail [0] [1] 2 (by decide)
  exact ⟨h.1, h.2.2.1 0 rfl⟩

theorem embDist_nonneg (a b : List ℚ) : 0 ≤ embDist a b := by
  rw [embDist]
  apply div_nonneg
  · apply List.sum_nonneg
    intro x hx
    rcases List.mem_map.mp hx with ⟨p, _, hp⟩
    rw [← hp]
    exact abs_nonneg _
  · positivity

/-- C6 (amended): with at least 2 completed steps, `energy_trend` is
`"decreasing"` iff the final embedding distance is *strictly less than* 95%
of the initial one, `"increasing"` iff it is *strictly greater than* 105% of
it, and `"stable"` otherwise (the source compares with `<` and `>`, so the
boundary cases 95% and 105% exactly are classified `"stable"`); with fewer
than 2 completed steps it is `"unknown"`. -/
theorem C6_energy_trend_strict (cemO : TrajCEMOracle) (predO : PredictOracle)
    (current goal : List ℚ) (n : ℕ) :
    (2 ≤ n →
      (((run_trajectory_planning cemO predO current goal n).energy_trend
          = "decreasing") ↔
        embDist (trajEmbAt cemO predO goal current n) goal
          < embDist current goal * (19/20)) ∧
      (((run_trajectory_planning cemO predO current goal n).energy_trend
          = "increasing") ↔
        embDist current goal * (21/20)
          < embDist (trajEmbAt cemO predO goal current n) goal) ∧
      (((run_trajectory_planning cemO predO current goal n).energy_trend
          = "stable") ↔
        (¬ embDist (trajEmbAt cemO predO goal current n) goal
            < embDist current goal * (19/20) ∧
         ¬ embDist current goal * (21/20)
            < embDist (trajEmbAt cemO predO goal current n) goal))) ∧
    (n < 2 →
      (run_trajectory_planning cemO predO current goal n).energy_trend
        = "unknown") := by
  obtain ⟨_, _, htrend, _, _⟩ :=
    run_trajectory_planning_characterization cemO predO current goal n
  constructor
  · intro h2
    rw [htrend, energyTrend, if_pos h2]
    by_cases hd : embDist (trajEmbAt cemO predO goal current n) goal
        < embDist current goal * (19/20)
    · rw [if_pos hd]
      have hni : ¬ embDist current goal * (21/20)
          < embDist (trajEmbAt cemO predO goal current n) goal := by
        have hI : 0 ≤ embDist current goal := embDist_nonneg current goal
        push_neg
        nlinarith
      refine ⟨⟨fun _ => hd, fun _ => rfl⟩, ⟨?_, fun h => absurd h hni⟩,
        ⟨?_, fun h => absurd hd h.1⟩⟩
      · intro hcontra
        exact absurd hcontra (by decide)
      · intro hcontra
        exact absurd hcontra (by decide)
    · rw [if_neg hd]
      by_cases hi : embDist (trajEmbAt cemO predO goal current n) goal
          > embDist current goal * (21/20)
      · rw [if_pos hi]
        refine ⟨⟨?_, fun h => absurd h hd⟩, ⟨fun _ => hi, fun _ => rfl⟩,
          ⟨?_, fun h => absurd hi h.2⟩⟩
        · intro hcontra
          exact absurd hcontra (by decide)
        · intro hcontra
          exact absurd hcontra (by decide)
      · rw [if_neg hi]
        refine ⟨⟨?_, fun h => absurd h hd⟩, ⟨?_, fun h => absurd h hi⟩,
          ⟨fun _ => ⟨hd, hi⟩, fun _ => rfl⟩⟩
        · intro hcontra
          exact absurd hcontra (by decide)
        · intro hcontra
          exact absurd hcontra (by decide)
  · intro hlt
    rw [htrend, energyTrend, if_neg (by omega)]

theorem C6_energy_trend_counterexample :
    (run_trajectory_planning wCemT wPredStable [0] [1] 2).energy_trend
      = "stable" ∧
    (run_trajectory_planning wCemT wPredStable [0] [1] 2).energy_trend
      ≠ "decreasing" ∧
    embDist (trajEmbAt wCemT wPredStable [1] [0] 2) [1]
      = embDist [0] [1] * (19/20) ∧
    (run_trajectory_planning wCemT wPredStable [0] [1] 2).steps.length = 2 := by
  obtain ⟨_, hlen, htrend, _, _⟩ :=
    run_trajectory_planning_characterization wCemT wPredStable [0] [1] 2
  have hemb2 : trajEmbAt wCemT wPredStable [1] [0] 2 = [1/20] := rfl
  have hF : embDist [1/20] [1] = 19/20 := by
    rw [embDist]
    norm_num
  have hI : embDist [(0:ℚ)] [1] = 1 := by
    rw [embDist]
    norm_num
  have htr : (run_trajectory_planning wCemT wPredStable [0] [1] 2).energy_trend
      = "stable" := by
    rw [htrend, hemb2, hF, hI, energyTrend]
    norm_num
  exact ⟨htr, by rw [htr]; decide, by rw [hemb2, hF, hI]; norm_num, hlen⟩

theorem C6_energy_trend_strict_witness :
    (run_trajectory_planning wCemT wPredStable [0] [1] 1).energy_trend
      = "unknown" :=
  (C6_energy_trend_strict wCemT wPredStable [0] [1] 1).2 (by decide)

theorem round4_of_eq (q : ℚ) (z : ℤ) (h : ((z : ℚ))/10000 = q) :
    round4 q = q := by
  rw [← h]
  exact round4_tenthousandth z

theorem progressRatio_mem (I d : ℚ) (hd : 0 ≤ d) :
    0 ≤ progressRatio I d ∧ progressRatio I d ≤ 1 := by
  rw [progressRatio]
  by_cases h : I > 1/100
  · rw [if_pos h]
    constructor
    · exact le_max_left 0 _
    · apply max_le (by norm_num)
      have : 0 ≤ d / I := div_nonneg hd (by linarith)
      linarith
  · rw [if_neg h]
    norm_num

/-- C8 (amended): each completed trajectory step records
`progress_ratio = round(max(0, 1 − current_distance/initial_distance), 4)` —
the source rounds the ratio to 4 decimal places before storing it — with the
ratio taken as 1.0 when `initial_distance ≤ 0.01`; every recorded ratio lies
in `[0, 1]`, and the spec's concrete scenario (initial distance 1, step
distances 0.8, 0.5, 0.3) records exactly `[0.2, 0.5, 0.7]`. -/
theorem C8_progress_ratio_rounded :
    (∀ (cemO : TrajCEMOracle) (predO : PredictOracle) (current goal : List ℚ)
        (n : ℕ) (i : ℕ), i < n →
      ((run_trajectory_planning cemO predO current goal n).steps.getD i
          default).progress_ratio
        = round4 (progressRatio (embDist current goal)
            (embDist (trajEmbAt cemO predO goal current (i + 1)) goal)) ∧
      0 ≤ ((run_trajectory_planning cemO predO current goal n).steps.getD i
          default).progress_ratio ∧
      ((run_trajectory_planning cemO predO current goal n).steps.getD i
          default).progress_ratio ≤ 1) ∧
    (∀ I d : ℚ, ¬ I > 1/100 → progressRatio I d = 1) ∧
    ((run_trajectory_planning wCemT wPredSeq [0] [1] 3).steps.map
        (fun s => s.progress_ratio) = [1/5, 1/2, 7/10]) := by
  refine ⟨?_, ?_, ?_⟩
  · intro cemO predO current goal n i hi
    obtain ⟨hsteps, _, _, _, _⟩ :=
      run_trajectory_planning_characterization cemO predO current goal n
    have hgetd : (run_trajectory_planning cemO predO current goal n).steps.getD
        i default = trajStepAt cemO predO goal current (embDist current goal) i := by
      rw [hsteps, List.getD_eq_getElem?_getD, List.getElem?_map,
        List.getElem?_range hi]
      rfl
    rw [hgetd]
    have hfield : (trajStepAt cemO predO goal current (embDist current goal)
        i).progress_ratio = round4 (progressRatio (embDist current goal)
          (embDist (trajEmbAt cemO predO goal current (i + 1)) goal)) := rfl
    refine ⟨hfield, ?_, ?_⟩
    · rw [hfield, ← round4_zero]
      exact round4_mono (progressRatio_mem _ _ (embDist_nonneg _ _)).1
    · rw [hfield]
      have h1 : round4 1 = 1 := round4_of_eq 1 10000 (by norm_num)
      rw [← h1]
      exact round4_mono (progressRatio_mem _ _ (embDist_nonneg _ _)).2
  · intro I d h
    rw [progressRatio, if_neg h]
  · obtain ⟨hsteps, _, _, _, _⟩ :=
      run_trajectory_planning_characterization wCemT wPredSeq [0] [1] 3
    rw [hsteps]
    have hI : embDist [(0:ℚ)] [1] = 1 := by rw [embDist]; norm_num
    have he1 : trajEmbAt wCemT wPredSeq [1] [0] 1 = [1/5] := rfl
    have he2 : trajEmbAt wCemT wPredSeq [1] [0] 2 = [1/2] := rfl
    have he3 : trajEmbAt wCemT wPredSeq [1] [0] 3 = [7/10] := rfl
    have hd1 : embDist [(1:ℚ)/5] [1] = 4/5 := by rw [embDist]; norm_num
    have hd2 : embDist [(1:ℚ)/2] [1] = 1/2 := by rw [embDist]; norm_num
    have hd3 : embDist [(7:ℚ)/10] [1] = 3/10 := by rw [embDist]; norm_num
    have hr1 : progressRatio 1 (4/5) = 1/5 := by
      rw [progressRatio, if_pos (by norm_num)]
      norm_num
    have hr2 : progressRatio 1 (1/2) = 1/2 := by
      rw [progressRatio, if_pos (by norm_num)]
      norm_num
    have hr3 : progressRatio 1 (3/10) = 7/10 := by
      rw [progressRatio, if_pos (by norm_num)]
      norm_num
    rw [show List.range 3 = [0, 1, 2] from rfl]
    simp only [List.map_cons, List.map_nil]
    rw [show (trajStepAt wCemT wPredSeq [1] [0] (embDist [0] [1])
        0).progress_ratio = round4 (progressRatio (embDist [(0:ℚ)] [1])
          (embDist (trajEmbAt wCemT wPredSeq [1] [0] 1) [1])) from rfl]
    rw [show (trajStepAt wCemT wPredSeq [1] [0] (embDist [0] [1])
        1).progress_ratio = round4 (progressRatio (embDist [(0:ℚ)] [1])
          (embDist (trajEmbAt wCemT wPredSeq [1] [0] 2) [1])) from rfl]
    rw [show (trajStepAt wCemT wPredSeq [1] [0] (embDist [0] [1])
        2).progress_ratio = round4 (progressRatio (embDist [(0:ℚ)] [1])
          (embDist (trajEmbAt wCemT wPredSeq [1] [0] 3) [1])) from rfl]
    rw [hI, he1, he2, he3, hd1, hd2, hd3, hr1, hr2, hr3]
    rw [round4_of_eq (1/5) 2000 (by norm_num),
      round4_of_eq (1/2) 5000 (by norm_num),
      round4_of_eq (7/10) 7000 (by norm_num)]

theorem C8_progress_ratio_counterexample :
    ((run_trajectory_planning wCemT wPredFar [0] [3] 1).steps.getD 0
        default).progress_ratio = 6667/10000 ∧
    ((run_trajectory_planning wCemT wPredFar [0] [3] 1).steps.getD 0
        default).distance_to_goal = 1 ∧
    (run_trajectory_planning wCemT wPredFar [0] [3] 1).initial_distance = 3 ∧
    max 0 (1 - (1:ℚ)/3) = 2/3 ∧
    (6667/10000 : ℚ) ≠ 2/3 := by
  obtain ⟨hsteps, _, _, hinit, _⟩ :=
    run_trajectory_planning_characterization wCemT wPredFar [0] [3] 1
  have hgetd : (run_trajectory_planning wCemT wPredFar [0] [3] 1).steps.getD
      0 default = trajStepAt wCemT wPredFar [3] [0] (embDist [0] [3]) 0 := by
    rw [hsteps, List.getD_eq_getElem?_getD, List.getElem?_map,
      List.getElem?_range (by decide : (0:ℕ) < 1)]
    rfl
  have hI : embDist [(0:ℚ)] [3] = 3 := by rw [embDist]; norm_num
  have he1 : trajEmbAt wCemT wPredFar [3] [0] 1 = [2] := rfl
  have hd : embDist [(2:ℚ)] [3] = 1 := by rw [embDist]; norm_num
  have hratio : progressRatio 3 1 = 2/3 := by
    rw [progressRatio, if_pos (by norm_num)]
    norm_num
  have hround : round4 (2/3) = 6667/10000 := by
    rw [round4, ratFloor_eq_intFloor]
    norm_num
  refine ⟨?_, ?_, ?_, by norm_num, by norm_num⟩
  · rw [hgetd]
    rw [show (trajStepAt wCemT wPredFar [3] [0] (embDist [0] [3])
        0).progress_ratio = round4 (progressRatio (embDist [(0:ℚ)] [3])
          (embDist (trajEmbAt wCemT wPredFar [3] [0] 1) [3])) from rfl]
    rw [hI, he1, hd, hratio, hround]
  · rw [hgetd]
    rw [show (trajStepAt wCemT wPredFar [3] [0] (embDist [0] [3])
        0).distance_to_goal = round4
          (embDist (trajEmbAt wCemT wPredFar [3] [0] 1) [3]) from rfl]
    rw [he1, hd]
    exact round4_of_eq 1 10000 (by norm_num)
  · rw [hinit, hI]
    exact round4_of_eq 3 30000 (by norm_num)

theorem C8_progress_ratio_rounded_witness :
    ((run_trajectory_planning wCemT wPredSeq [0] [1] 3).steps.getD 0
        default).progress_ratio
      = round4 (progressRatio (embDist [0] [1])
          (embDist (trajEmbAt wCemT wPredSeq [1] [0] 1) [1])) ∧
    0 ≤ ((run_trajectory_planning wCemT wPredSeq [0] [1] 3).steps.getD 0
        default).progress_ratio ∧
    ((run_trajectory_planning wCemT wPredSeq [0] [1] 3).steps.getD 0
        default).progress_ratio ≤ 1 :=
  C8_progress_ratio_rounded.1 wCemT wPredSeq [0] [1] 3 0 (by decide)
